import Mathlib

/-!
# The logging core of `jiangrzh/Core`

A shallow embedding of `include/logger.hpp` (log levels, time-stamped
messages, the sink hierarchy, the fan-out `Logger` and its builder) together
with the parts of `include/detail/exception_enums.hpp` and
`include/stringutil.hpp` that the logger relies on.

Conventions of the embedding.

* A C++ call that may throw returns an `Outcome`: the state the call leaves
  behind together with the exception that left it, if any.  Effects performed
  before the `throw` stay visible in the state.
* `boost::get_system_time()` is an oracle `time : Nat → SystemTime`; the state
  carries the number `reads` of clock reads made so far, and the next read
  returns `time reads`.
* The calls a `Logger` makes are recorded in a ghost `trace` of `Event`s.
-/

namespace core

/-! ## Enumerations -/

/-- Enum `LogLevel` of `logger.hpp`. -/
inductive LogLevel where
  | LOG_DEBUG
  | LOG_INFO
  | LOG_WARNING
  | LOG_ERROR
  deriving DecidableEq

/-- Numeric value of a `LogLevel` enumerator. -/
def LogLevel.value : LogLevel → Int
  | .LOG_DEBUG => 0
  | .LOG_INFO => 1
  | .LOG_WARNING => 2
  | .LOG_ERROR => 3

/-- Enum `ExceptionSeverity` of `exception_enums.hpp`.  A C++ unscoped enum
can hold any value of its underlying integer type, so a severity is the
integer it carries. -/
structure ExceptionSeverity where
  value : Int
  deriving DecidableEq

/-- Enumerator `EXCEP_SEVERITY_NOTICE = 0`. -/
def EXCEP_SEVERITY_NOTICE : ExceptionSeverity := ⟨0⟩

/-- Enumerator `EXCEP_SEVERITY_WARNING = 5`. -/
def EXCEP_SEVERITY_WARNING : ExceptionSeverity := ⟨5⟩

/-- Enumerator `EXCEP_SEVERITY_ERROR = 10`. -/
def EXCEP_SEVERITY_ERROR : ExceptionSeverity := ⟨10⟩

/-- Enum `ExceptionCode` of `exception_enums.hpp`. -/
inductive ExceptionCode where
  | GENERIC_EXCEPTION
  | UNKNOWN_EXCEPTION
  | ASSERTION_EXCEPTION
  | NULL_POINTER_EXCEPTION
  | CAST_EXCEPTION
  | INITIALIZATION_EXCEPTION
  | CALL_ONCE_EXCEPTION
  | IO_EXCEPTION
  | FILE_OPEN_EXCEPTION
  | PARAMETER_EXCEPTION
  | ATTRIBUTE_EXCEPTION
  | INSERT_FAILED_EXCEPTION
  | CONCURRENCY_EXCEPTION
  | RACE_CONDITION_EXCEPTION
  | DEADLOCK_EXCEPTION
  | MATH_EXCEPTION
  | DIVIDE_BY_ZERO_EXCEPTION
  deriving DecidableEq

/-- Numeric value of an `ExceptionCode` enumerator. -/
def ExceptionCode.value : ExceptionCode → Int
  | .GENERIC_EXCEPTION => 0
  | .UNKNOWN_EXCEPTION => 1
  | .ASSERTION_EXCEPTION => 2
  | .NULL_POINTER_EXCEPTION => 3
  | .CAST_EXCEPTION => 4
  | .INITIALIZATION_EXCEPTION => 5
  | .CALL_ONCE_EXCEPTION => 6
  | .IO_EXCEPTION => 10
  | .FILE_OPEN_EXCEPTION => 11
  | .PARAMETER_EXCEPTION => 20
  | .ATTRIBUTE_EXCEPTION => 21
  | .INSERT_FAILED_EXCEPTION => 22
  | .CONCURRENCY_EXCEPTION => 30
  | .RACE_CONDITION_EXCEPTION => 31
  | .DEADLOCK_EXCEPTION => 32
  | .MATH_EXCEPTION => 40
  | .DIVIDE_BY_ZERO_EXCEPTION => 41

/-! ## Exceptions -/

/-- A thrown `core::Exception` with the attachments `ExceptionBasis` puts on
it: error code, severity and message. -/
structure Exception where
  code : ExceptionCode
  severity : ExceptionSeverity
  message : String
  deriving DecidableEq

/-- Result of a call that may throw: the state it leaves and the exception
that left it, `none` for a normal return. -/
structure Outcome (σ : Type) where
  state : σ
  raised : Option Exception

/-! ## Messages -/

/-- A value of `boost::system_time`. -/
abbrev SystemTime := Nat

/-- Class template `TimestampedLevelMessage<T>`. -/
structure TimestampedLevelMessage (T : Type) where
  loglevel : LogLevel
  message : T
  stamp : SystemTime
  deriving DecidableEq

/-- Constructor `TimestampedLevelMessage(level, msg)`; `now` is the value
`boost::get_system_time()` returns at the call. -/
def TimestampedLevelMessage.ctor {T : Type}
    (level : LogLevel) (msg : T) (now : SystemTime) : TimestampedLevelMessage T :=
  ⟨level, msg, now⟩

/-- Typedef `TimeLevelString`. -/
abbrev TimeLevelString := TimestampedLevelMessage String

/-! ## Weak application handle -/

/-- Typedef `ApplicationPtr`: a non-null shared pointer, identified by the
application it points to. -/
structure ApplicationPtr where
  app : Nat
  deriving DecidableEq

/-- Typedef `ApplicationWPtr`: a weak pointer, with the liveness of its
referent at the moment it is inspected. -/
structure ApplicationWPtr where
  app : Nat
  expired : Bool
  deriving DecidableEq

/-- Member `weak_ptr::lock()`: the shared pointer, null (`none`) when the
referent is gone. -/
def ApplicationWPtr.lock (w : ApplicationWPtr) : Option ApplicationPtr :=
  if w.expired then none else some ⟨w.app⟩

/-! ## Sinks -/

/-- Class `LoggingSink`.  `processMessage` is pure virtual: a concrete sink is
described by `raises`, the exception its `processMessage` throws on a message
(`none` when it completes), and the sink state is `received`, every message
handed to `processMessage` so far, in call order. -/
structure LoggingSink where
  raises : TimeLevelString → Option Exception
  received : List TimeLevelString

/-- Pure virtual `LoggingSink::processMessage(msg)` of a concrete sink. -/
def LoggingSink.processMessage (s : LoggingSink) (msg : TimeLevelString) :
    Outcome LoggingSink :=
  ⟨{ s with received := s.received ++ [msg] }, s.raises msg⟩

/-- The messages whose processing completed without an exception. -/
def LoggingSink.processed (s : LoggingSink) : List TimeLevelString :=
  s.received.filter (fun m => (s.raises m).isNone)

/-- Member `LoggingSink::sinkMessage(level, msg)`. -/
def LoggingSink.sinkMessage (s : LoggingSink) (now : SystemTime)
    (level : LogLevel) (msg : String) : Outcome LoggingSink :=
  let stampedMessage : TimeLevelString :=
    TimestampedLevelMessage.ctor level msg now
  s.processMessage stampedMessage

/-- Member `LoggingSink::flush()`, with the empty body. -/
def LoggingSink.flush (s : LoggingSink) : LoggingSink := s

/-- Modelled from the spec: `threading/container/tsqueue.hpp` is not among the
sources.  The queue is "an unbounded ordered queue of pending Messages (FIFO —
insertion order is processing order)". -/
structure TSQueue (T : Type) where
  items : List T
  deriving DecidableEq

/-- Modelled from the spec: `TSQueue::enqueue`, "push it onto the tail of the
internal queue". -/
def TSQueue.enqueue {T : Type} (q : TSQueue T) (x : T) : TSQueue T :=
  ⟨q.items ++ [x]⟩

/-- Modelled from the spec: `threading/container/tswrapper.hpp` is not among
the sources.  The condition variable the worker waits on; `notifications`
counts the `notifyOne()` signals sent to it. -/
structure ConditionLockable where
  notifications : Nat
  deriving DecidableEq

/-- Modelled from the spec: `TSWrapper::notifyOne`, "signal the worker's wait
condition (wake-one semantics)". -/
def ConditionLockable.notifyOne (c : ConditionLockable) : ConditionLockable :=
  ⟨c.notifications + 1⟩

/-- Class `TSQueueSink`: the `LoggingSink` base with the weak application
handle, the message queue and the condition lock. -/
structure TSQueueSink extends LoggingSink where
  application : ApplicationWPtr
  msgQueue : TSQueue TimeLevelString
  condLock : ConditionLockable

/-- Member `TSQueueSink::sinkMessage(level, msg)`. -/
def TSQueueSink.sinkMessage (s : TSQueueSink) (now : SystemTime)
    (level : LogLevel) (msg : String) : TSQueueSink :=
  { s with
    msgQueue := s.msgQueue.enqueue
      (TimestampedLevelMessage.ctor level msg now)
    condLock := s.condLock.notifyOne }

/-- Member `TSQueueSink::flush()`, with the empty body. -/
def TSQueueSink.flush (s : TSQueueSink) : TSQueueSink := s

/-- A sink object held by a `Logger`, by its dynamic class: `direct` is a
concrete subclass of `LoggingSink` that keeps `LoggingSink::sinkMessage` and
`LoggingSink::flush`, `queued` a concrete subclass of `TSQueueSink`. -/
inductive Sink where
  | direct (s : LoggingSink)
  | queued (s : TSQueueSink)

/-- Virtual call `logsink.sinkMessage(level, msg)`. -/
def Sink.sinkMessage (logsink : Sink) (now : SystemTime) (level : LogLevel)
    (msg : String) : Outcome Sink :=
  match logsink with
  | .direct s =>
    let r := s.sinkMessage now level msg
    ⟨.direct r.state, r.raised⟩
  | .queued s => ⟨.queued (s.sinkMessage now level msg), none⟩

/-- Virtual call `logsink.flush()`. -/
def Sink.flush (logsink : Sink) : Sink :=
  match logsink with
  | .direct s => .direct s.flush
  | .queued s => .queued s.flush

/-- The messages handed to the `processMessage` of a sink so far. -/
def Sink.received : Sink → List TimeLevelString
  | .direct s => s.received
  | .queued s => s.received

/-- The level and text of the messages handed to `processMessage` of a sink,
in call order: what a recording sink shows. -/
def Sink.record (s : Sink) : List (LogLevel × String) :=
  s.received.map (fun m => (m.loglevel, m.message))

/-- The exception a call `logsink.sinkMessage(level, msg)` made at time `now`
leaves with: that of `processMessage` for a direct sink, none for a queued
one. -/
def Sink.raisesOn (logsink : Sink) (now : SystemTime) (level : LogLevel)
    (msg : String) : Option Exception :=
  match logsink with
  | .direct s => s.raises ⟨level, msg, now⟩
  | .queued _ => none

/-! ## Logger -/

/-- Class `Logger`: the owned sinks, the name and the weak application
handle. -/
structure Logger where
  sinks : List Sink
  name : String
  application : ApplicationWPtr

/-- Constructor `Logger::Logger(logname, app)`. -/
def Logger.ctor (logname : String) (app : ApplicationWPtr) : Logger :=
  { sinks := [], name := logname, application := app }

/-- Member `Logger::addSink(sinkptr)`: `sinks.push_back(sinkptr)`. -/
def Logger.addSink (l : Logger) (sinkptr : Sink) : Logger :=
  { l with sinks := l.sinks ++ [sinkptr] }

/-- A call observed while a `Logger` member runs: one evaluation of
`toString(msg)`, or one call `sinkMessage(level, msg)` on the sink at position
`sink` of the sink vector. -/
inductive Event where
  | toString
  | sinkMessage (sink : Nat) (level : LogLevel) (msg : String)
  deriving DecidableEq

/-- State at the exit of a `forEach` loop over the sinks. -/
structure LoopExit where
  sinks : List Sink
  reads : Nat
  trace : List Event
  raised : Option Exception

/-- The loop `forEach (LoggingSink& logsink, sinks) { logsink.sinkMessage(level, msg); }`
of `Logger::logMessage(LogLevel, const std::string&)`, from the sink at
position `i` on.  An exception leaves the loop at once. -/
def forEachSinkMessage (time : Nat → SystemTime) (level : LogLevel) (msg : String) :
    List Sink → Nat → Nat → LoopExit
  | [], reads, _ => ⟨[], reads, [], none⟩
  | logsink :: rest, reads, i =>
    let r := logsink.sinkMessage (time reads) level msg
    match r.raised with
    | some e => ⟨r.state :: rest, reads + 1, [.sinkMessage i level msg], some e⟩
    | none =>
      let k := forEachSinkMessage time level msg rest (reads + 1) (i + 1)
      ⟨r.state :: k.sinks, k.reads, .sinkMessage i level msg :: k.trace, k.raised⟩

/-- The loop `forEach (LoggingSink& logsink, sinks) { logsink.sinkMessage(level, toString(msg)); }`
of the template `Logger::logMessage<T>`, from the sink at position `i` on: each
iteration evaluates the argument `toString(msg)` and then makes the call. -/
def forEachSinkToString {T : Type} (time : Nat → SystemTime)
    (toString : T → Except Exception String) (level : LogLevel) (msg : T) :
    List Sink → Nat → Nat → LoopExit
  | [], reads, _ => ⟨[], reads, [], none⟩
  | logsink :: rest, reads, i =>
    match toString msg with
    | .error e => ⟨logsink :: rest, reads, [.toString], some e⟩
    | .ok text =>
      let r := logsink.sinkMessage (time reads) level text
      match r.raised with
      | some e =>
        ⟨r.state :: rest, reads + 1, [.toString, .sinkMessage i level text], some e⟩
      | none =>
        let k := forEachSinkToString time toString level msg rest (reads + 1) (i + 1)
        ⟨r.state :: k.sinks, k.reads,
          .toString :: .sinkMessage i level text :: k.trace, k.raised⟩

/-- State at the exit of a `Logger` member. -/
structure Run where
  logger : Logger
  reads : Nat
  trace : List Event
  raised : Option Exception

/-- Member `Logger::logMessage(LogLevel level, const std::string& msg)`. -/
def Logger.logMessage (time : Nat → SystemTime) (l : Logger) (reads : Nat)
    (level : LogLevel) (msg : String) : Run :=
  let k := forEachSinkMessage time level msg l.sinks reads 0
  ⟨{ l with sinks := k.sinks }, k.reads, k.trace, k.raised⟩

/-- Member template `Logger::logMessage<T>(LogLevel level, const T& msg)`;
`toString` is the overload of `core::toString` selected for `T`. -/
def Logger.logMessageT {T : Type} (time : Nat → SystemTime)
    (toString : T → Except Exception String) (l : Logger) (reads : Nat)
    (level : LogLevel) (msg : T) : Run :=
  let k := forEachSinkToString time toString level msg l.sinks reads 0
  ⟨{ l with sinks := k.sinks }, k.reads, k.trace, k.raised⟩

/-- The `switch` of `Logger::logException` on the severity of the exception,
which sets the local `loglevel`. -/
def Logger.logExceptionLevel (severity : ExceptionSeverity) : LogLevel :=
  if severity = EXCEP_SEVERITY_NOTICE then .LOG_INFO
  else if severity = EXCEP_SEVERITY_WARNING then .LOG_WARNING
  else if severity = EXCEP_SEVERITY_ERROR then .LOG_ERROR
  else .LOG_ERROR

/-- Member `Logger::logException(const boost::exception& x)`.
`getExceptionSeverity` is defined outside the sources and is a parameter, as is
the `toString` overload for `boost::exception`. -/
def Logger.logException {X : Type} (time : Nat → SystemTime)
    (getExceptionSeverity : X → ExceptionSeverity)
    (toString : X → Except Exception String) (l : Logger) (reads : Nat) (x : X) : Run :=
  let loglevel := Logger.logExceptionLevel (getExceptionSeverity x)
  l.logMessageT time toString reads loglevel x

/-- Runs the calls `logMessage(level, msg)` of a list one after the other on
one thread; the first call that throws ends the sequence. -/
def Logger.logMessages (time : Nat → SystemTime) :
    Logger → Nat → List (LogLevel × String) → Run
  | l, reads, [] => ⟨l, reads, [], none⟩
  | l, reads, (level, msg) :: rest =>
    let r := l.logMessage time reads level msg
    match r.raised with
    | some e => ⟨r.logger, r.reads, r.trace, some e⟩
    | none =>
      let k := Logger.logMessages time r.logger r.reads rest
      ⟨k.logger, k.reads, r.trace ++ k.trace, k.raised⟩

/-! ## Logger builder -/

/-- Class `detail::LoggerBuilder`. -/
structure LoggerBuilder where
  application : ApplicationWPtr

/-- Member `detail::LoggerBuilder::build(key)`.  The macro
`throwNullPointerException(message)` is defined in `exceptions.hpp`, which is
not among the sources: it is a parameter, the exception that the macro throws
for a message.  Nothing is assumed about the code, severity or text of that
exception. -/
def LoggerBuilder.build (throwNullPointerException : String → Exception)
    (b : LoggerBuilder) (key : String) : Except Exception Logger :=
  if b.application.lock.isNone then
    .error (throwNullPointerException "Logger Builder given NULL pointer for application")
  else
    .ok (Logger.ctor key b.application)

/-! ## A queue sink, its producers and its worker -/

/-- The time-stamped messages that the calls `sinkMessage(level, msg)` of a
list construct when made one after the other, the first at clock read
`reads`. -/
def stampAll (time : Nat → SystemTime) : Nat → List (LogLevel × String) → List TimeLevelString
  | _, [] => []
  | reads, (level, msg) :: rest =>
    TimestampedLevelMessage.ctor level msg (time reads) :: stampAll time (reads + 1) rest

/-- The calls `sinkMessage(level, msg)` of a list made one after the other on
one queue sink by one thread. -/
def TSQueueSink.sinkMessages (time : Nat → SystemTime) :
    TSQueueSink → Nat → List (LogLevel × String) → TSQueueSink
  | s, _, [] => s
  | s, reads, (level, msg) :: rest =>
    TSQueueSink.sinkMessages time (s.sinkMessage (time reads) level msg) (reads + 1) rest

/-- A queue sink together with the local state of its worker thread: the batch
the worker has taken out of the queue and not yet processed, and the number of
clock reads made so far. -/
structure SinkThread where
  sink : TSQueueSink
  batch : List TimeLevelString
  reads : Nat

/-- Modelled from the spec: `TSQueueSink::sinkWorker` and
`TSQueueSink::processQueue` are declared in `logger.hpp` and defined in a file
that is not among the sources.  Step 1 of the worker loop: "Atomically drain
the entire current contents of the queue into a local batch"; the worker is at
this step only when its previous batch is finished. -/
def SinkThread.drain (w : SinkThread) : SinkThread :=
  match w.batch with
  | [] => { w with batch := w.sink.msgQueue.items,
                   sink := { w.sink with msgQueue := ⟨[]⟩ } }
  | _ :: _ => w

/-- Modelled from the spec: `TSQueueSink::processQueue` is not among the
sources.  Step 2 of the worker loop, for one message: "For each Message in the
batch, in FIFO order, invoke the sink-specific processing step"; when the step
raises, the worker "continues with the next queued message". -/
def SinkThread.processNext (w : SinkThread) : SinkThread :=
  match w.batch with
  | [] => w
  | msg :: rest =>
    { w with batch := rest,
             sink := { w.sink with
               toLoggingSink := (w.sink.toLoggingSink.processMessage msg).state } }

/-- An atomic action on a queue sink: a producer calls `sinkMessage` or
`flush`, or the worker drains the queue or processes the next message of its
batch. -/
inductive Action where
  | sinkMessage (level : LogLevel) (msg : String)
  | flush
  | drain
  | processNext
  deriving DecidableEq

/-- One atomic action of an interleaving. -/
def SinkThread.step (time : Nat → SystemTime) (w : SinkThread) : Action → SinkThread
  | .sinkMessage level msg =>
    { w with sink := w.sink.sinkMessage (time w.reads) level msg, reads := w.reads + 1 }
  | .flush => { w with sink := w.sink.flush }
  | .drain => w.drain
  | .processNext => w.processNext

/-- An interleaving of producer calls and worker steps, run from `w`. -/
def SinkThread.run (time : Nat → SystemTime) (w : SinkThread) (schedule : List Action) :
    SinkThread :=
  schedule.foldl (SinkThread.step time) w

/-- The messages enqueued by an interleaving, in the order they were enqueued,
the first `sinkMessage` of it being made at clock read `reads`. -/
def enqueuedBy (time : Nat → SystemTime) : Nat → List Action → List TimeLevelString
  | _, [] => []
  | reads, .sinkMessage level msg :: rest =>
    TimestampedLevelMessage.ctor level msg (time reads) :: enqueuedBy time (reads + 1) rest
  | reads, .flush :: rest => enqueuedBy time reads rest
  | reads, .drain :: rest => enqueuedBy time reads rest
  | reads, .processNext :: rest => enqueuedBy time reads rest

/-- The worker steps that finish the current batch, drain the queue once more
and process all it held. -/
def SinkThread.catchUp (w : SinkThread) : List Action :=
  List.replicate w.batch.length Action.processNext ++ [Action.drain] ++
    List.replicate w.sink.msgQueue.items.length Action.processNext

/-! ## Level wrappers of `Logger` -/

/-- Member template `Logger::logDebug<T>(const T& debug)`, for a `T` other than
`std::string`: the call inside resolves to the template `logMessage<T>`. -/
def Logger.logDebug {T : Type} (time : Nat → SystemTime)
    (toString : T → Except Exception String) (l : Logger) (reads : Nat) (debug : T) : Run :=
  l.logMessageT time toString reads .LOG_DEBUG debug

/-- Member template `Logger::logInfo<T>(const T& info)`, for a `T` other than
`std::string`. -/
def Logger.logInfo {T : Type} (time : Nat → SystemTime)
    (toString : T → Except Exception String) (l : Logger) (reads : Nat) (info : T) : Run :=
  l.logMessageT time toString reads .LOG_INFO info

/-- Member template `Logger::logWarning<T>(const T& warning)`, for a `T` other
than `std::string`. -/
def Logger.logWarning {T : Type} (time : Nat → SystemTime)
    (toString : T → Except Exception String) (l : Logger) (reads : Nat) (warning : T) : Run :=
  l.logMessageT time toString reads .LOG_WARNING warning

/-- Member template `Logger::logError<T>(const T& error)`, for a `T` other than
`std::string`. -/
def Logger.logError {T : Type} (time : Nat → SystemTime)
    (toString : T → Except Exception String) (l : Logger) (reads : Nat) (error : T) : Run :=
  l.logMessageT time toString reads .LOG_ERROR error

/-- Member template `Logger::logDebug<T>` at `T = std::string`: the call inside
resolves to the non-template `logMessage(LogLevel, const std::string&)`. -/
def Logger.logDebugString (time : Nat → SystemTime) (l : Logger) (reads : Nat)
    (debug : String) : Run :=
  l.logMessage time reads .LOG_DEBUG debug

/-- Member template `Logger::logInfo<T>` at `T = std::string`. -/
def Logger.logInfoString (time : Nat → SystemTime) (l : Logger) (reads : Nat)
    (info : String) : Run :=
  l.logMessage time reads .LOG_INFO info

/-- Member template `Logger::logWarning<T>` at `T = std::string`. -/
def Logger.logWarningString (time : Nat → SystemTime) (l : Logger) (reads : Nat)
    (warning : String) : Run :=
  l.logMessage time reads .LOG_WARNING warning

/-- Member template `Logger::logError<T>` at `T = std::string`. -/
def Logger.logErrorString (time : Nat → SystemTime) (l : Logger) (reads : Nat)
    (error : String) : Run :=
  l.logMessage time reads .LOG_ERROR error

/-- The sink `b` is the sink object `a` at a later time: the same dynamic
class with the same `processMessage` (and, for a queue sink, the same
application handle), whose received and queued messages extend those of `a`. -/
def Sink.evolvesTo : Sink → Sink → Prop
  | .direct a, .direct b => a.raises = b.raises ∧ a.received <+: b.received
  | .queued a, .queued b =>
    a.raises = b.raises ∧ a.received <+: b.received ∧ a.application = b.application ∧
      a.msgQueue.items <+: b.msgQueue.items
  | .direct _, .queued _ => False
  | .queued _, .direct _ => False

/-! ## Producers of a queue sink -/

/-- The messages enqueued by an interleaving whose actions carry the thread
that performs them: each message with its producer thread, in the order they
were enqueued, the first `sinkMessage` being made at clock read `reads`. -/
def enqueuedByThread (time : Nat → SystemTime) :
    Nat → List (Nat × Action) → List (Nat × TimeLevelString)
  | _, [] => []
  | reads, (thread, .sinkMessage level msg) :: rest =>
    (thread, TimestampedLevelMessage.ctor level msg (time reads)) ::
      enqueuedByThread time (reads + 1) rest
  | reads, (_, .flush) :: rest => enqueuedByThread time reads rest
  | reads, (_, .drain) :: rest => enqueuedByThread time reads rest
  | reads, (_, .processNext) :: rest => enqueuedByThread time reads rest

/-! ## Loops of `loops.hpp` -/

/-- Struct `loops::detail::IncrementCounterPassthrough`: the flag `first`, and
the counter variable `count` of the caller that `incrementer` is bound to. -/
structure IncrementCounterPassthrough where
  first : Bool
  count : Nat

/-- Constructor `IncrementCounterPassthrough(Count& t)`: `t = 0; first = true`,
and `incrementer` bound to `t`. -/
def IncrementCounterPassthrough.ctor : IncrementCounterPassthrough :=
  { first := true, count := 0 }

/-- Number of values of `unsigned int`, taken as 32 bits wide. -/
def UINT_RANGE : Nat := 2 ^ 32

/-- Number of values of `unsigned long long int`, taken as 64 bits wide. -/
def ULLONG_RANGE : Nat := 2 ^ 64

/-- The statement `for (maxiter = numiter; unique != maxiter; unique++) body`
shared by `forRepeat` and `forRepeatLong`, from the current value of the hidden
counter `unique`, on an unsigned type of `range` values: `unique++` wraps
around at `range`.  The values of the type are below `range`; the first two
conjuncts of the test say so. -/
def forRepeatLoop {σ : Type} (range maxiter : Nat) (body : σ → σ) (unique : Nat) (s : σ) : σ :=
  if _h : unique < range ∧ maxiter < range ∧ unique ≠ maxiter then
    forRepeatLoop range maxiter body ((unique + 1) % range) (body s)
  else s
termination_by (if unique ≤ maxiter then maxiter - unique else maxiter + range - unique)
decreasing_by
  obtain ⟨h1, h2, h3⟩ := _h
  by_cases hw : unique + 1 < range
  · rw [Nat.mod_eq_of_lt hw]
    split_ifs <;> omega
  · have he : unique + 1 = range := by omega
    rw [he, Nat.mod_self]
    split_ifs <;> omega

/-- Macro `forRepeat(numiter) body`: `if (unsigned int unique = 0) {} else
for (unsigned int maxiter = numiter; unique != maxiter; unique++) body`.  The
condition `unique = 0` is false, so the `for` runs; `numiter` is converted to
`unsigned int`. -/
def forRepeat {σ : Type} (numiter : Nat) (body : σ → σ) (s : σ) : σ :=
  forRepeatLoop UINT_RANGE (numiter % UINT_RANGE) body 0 s

/-- Macro `forRepeatLong(numiter) body`: as `forRepeat`, on
`unsigned long long int`. -/
def forRepeatLong {σ : Type} (numiter : Nat) (body : σ → σ) (s : σ) : σ :=
  forRepeatLoop ULLONG_RANGE (numiter % ULLONG_RANGE) body 0 s

/-! ## `onEach` and `reverseOnEach` of `loops.hpp` -/

/-- Function template `onEach(void (*function)(I), C& container)` and its
`boost::function1<void, I>` twin: `forEach(I& item, container) function(item);`.
The function takes the item by value; its effect is a change of the state
`σ`. -/
def onEach {α σ : Type} (function : α → σ → σ) : List α → σ → σ
  | [], s => s
  | item :: rest, s => onEach function rest (function item s)

/-- Function template `onEach(void (*function)(I&), C& container)` and its
`boost::function1<void, I&>` twin: the function takes the item by reference
and may change it in the container.  The result is the container after the
loop and the final state. -/
def onEachRef {α σ : Type} (function : α → σ → α × σ) : List α → σ → List α × σ
  | [], s => ([], s)
  | item :: rest, s =>
    let r := function item s
    let k := onEachRef function rest r.2
    (r.1 :: k.1, k.2)

/-- Function template `reverseOnEach(void (*function)(I), C& container)` and
its `boost::function1<void, I>` twin:
`reverseForEach(I& item, container) function(item);`, which walks the
container from its last item to its first. -/
def reverseOnEach {α σ : Type} (function : α → σ → σ) : List α → σ → σ
  | [], s => s
  | item :: rest, s => function item (reverseOnEach function rest s)

/-- Function template `reverseOnEach(void (*function)(I&), C& container)` and
its `boost::function1<void, I&>` twin. -/
def reverseOnEachRef {α σ : Type} (function : α → σ → α × σ) : List α → σ → List α × σ
  | [], s => ([], s)
  | item :: rest, s =>
    let k := reverseOnEachRef function rest s
    let r := function item k.2
    (r.1 :: k.1, r.2)

/-! ## `assertAsException` of `exceptionTypes.hpp` -/

/-- Macro `ExceptionBasis(message, code, severity, exceptionType)`: the
exception with the message, code and severity attached (function, file and
line are not kept). -/
def ExceptionBasis (message : String) (code : ExceptionCode)
    (severity : ExceptionSeverity) : Exception :=
  ⟨code, severity, message⟩

/-- Macro `throwCastException(message, sourceType, destType)` of
`stringutil.hpp`: the `ExceptionBasis` with `CAST_EXCEPTION` and
`EXCEP_SEVERITY_ERROR` (the two type attachments are not kept). -/
def throwCastException (message : String) : Exception :=
  ExceptionBasis message .CAST_EXCEPTION EXCEP_SEVERITY_ERROR

/-- A C++ expression as it is written at a macro call: integer literals, the
unary `!`, binary operators, and `paren` for a pair of parentheses in the
source text.  An operand that needs parentheses to parse is a `paren`. -/
inductive CExpr where
  | lit (n : Int)
  | not (e : CExpr)
  | eq (a b : CExpr)
  | ne (a b : CExpr)
  | lt (a b : CExpr)
  | and (a b : CExpr)
  | or (a b : CExpr)
  | paren (e : CExpr)
  deriving DecidableEq

/-- Value of a C++ expression; the boolean results are 1 and 0, and a value
is true when it is not 0. -/
def CExpr.eval : CExpr → Int
  | .lit n => n
  | .not e => if e.eval = 0 then 1 else 0
  | .eq a b => if a.eval = b.eval then 1 else 0
  | .ne a b => if a.eval = b.eval then 0 else 1
  | .lt a b => if a.eval < b.eval then 1 else 0
  | .and a b => if a.eval = 0 then 0 else if b.eval = 0 then 0 else 1
  | .or a b => if a.eval = 0 then (if b.eval = 0 then 0 else 1) else 1
  | .paren e => e.eval

/-- The expression that the tokens `!condition` parse to, `condition` being
pasted by the preprocessor without parentheses: the unary `!` binds tighter
than every binary operator, so it takes the leftmost operand of `condition`. -/
def CExpr.pasteNot : CExpr → CExpr
  | .lit n => .not (.lit n)
  | .not e => .not (.not e)
  | .paren e => .not (.paren e)
  | .eq a b => .eq a.pasteNot b
  | .ne a b => .ne a.pasteNot b
  | .lt a b => .lt a.pasteNot b
  | .and a b => .and a.pasteNot b
  | .or a b => .or a.pasteNot b

/-- Macro `assertAsException(condition, message)`:
`if (!condition) throw ExceptionBasis(message, ASSERTION_EXCEPTION,
EXCEP_SEVERITY_ERROR, Exception)`.  The result is the exception thrown, `none`
when the statement does nothing. -/
def assertAsException (condition : CExpr) (message : String) : Option Exception :=
  if condition.pasteNot.eval ≠ 0 then
    some (ExceptionBasis message .ASSERTION_EXCEPTION EXCEP_SEVERITY_ERROR)
  else none

/-! ## Strings and enumerations in `stringutil.hpp` -/

/-- Overload `toString(const std::string& castable)`: `return castable;`. -/
def toStringOfString (castable : String) : Except Exception String :=
  .ok castable

/-- Overload `toStringNoThrow(const std::string& castable)`:
`return castable;`. -/
def toStringNoThrowOfString (castable : String) : String :=
  castable

/-- Constant `EXCEP_SEVERITY_NOTICE_STRING`. -/
def EXCEP_SEVERITY_NOTICE_STRING : String := "Notice"

/-- Constant `EXCEP_SEVERITY_WARNING_STRING`. -/
def EXCEP_SEVERITY_WARNING_STRING : String := "Warning"

/-- Constant `EXCEP_SEVERITY_ERROR_STRING`. -/
def EXCEP_SEVERITY_ERROR_STRING : String := "Error"

/-- Modelled from the spec: `enum.hpp` and the boost bimap it builds on are
not among the sources, and the spec leaves the enumeration helpers to "plain
library calls".  A `boost::bimap` with unique keys on both sides is the list of
its pairs in insertion order. -/
structure Bimap (L R : Type) where
  pairs : List (L × R)

/-- Modelled from the spec: insertion into a `boost::bimap`, which is not
among the sources; a pair whose left or right key is already in the map is
dropped. -/
def Bimap.insert {L R : Type} [DecidableEq L] [DecidableEq R] (m : Bimap L R)
    (p : L × R) : Bimap L R :=
  if m.pairs.any (fun q => decide (q.1 = p.1) || decide (q.2 = p.2)) then m
  else ⟨m.pairs ++ [p]⟩

/-- Modelled from the spec: macro `BI_MAP_BUILDER(L, R)(l1, r1)(l2, r2)..` of
`enum.hpp`, which is not among the sources: the bimap that results from
inserting the pairs in the order written. -/
def BI_MAP_BUILDER {L R : Type} [DecidableEq L] [DecidableEq R]
    (pairs : List (L × R)) : Bimap L R :=
  pairs.foldl Bimap.insert ⟨[]⟩

/-- Modelled from the spec: `enumToValue` of `enum.hpp`, which is not among the
sources: the right value paired with the enumerator in the bimap of
`enumMappings`, `none` when the enumerator is not in it. -/
def enumToValue {L R : Type} [DecidableEq L] (mappings : Bimap L R) (eval : L) : Option R :=
  (mappings.pairs.find? (fun q => decide (q.1 = eval))).map Prod.snd

/-- Modelled from the spec: `valueToEnum` of `enum.hpp`, which is not among the
sources ("Use our predefined bimap to convert for us", as its callers put it):
the enumerator paired with the value in the bimap of `enumMappings`; it throws
when the value is not in it, which is `none` here. -/
def valueToEnum {L R : Type} [DecidableEq R] (mappings : Bimap L R) (value : R) : Option L :=
  (mappings.pairs.find? (fun q => decide (q.2 = value))).map Prod.fst

/-- Constant `EXCEP_SEVERITY_STRING_BIMAP` of `exception_enums.hpp`, which
`enumMappings<ExceptionSeverity, std::string>()` returns. -/
def EXCEP_SEVERITY_STRING_BIMAP : Bimap ExceptionSeverity String :=
  BI_MAP_BUILDER
    [(EXCEP_SEVERITY_NOTICE, EXCEP_SEVERITY_NOTICE_STRING),
     (EXCEP_SEVERITY_WARNING, EXCEP_SEVERITY_WARNING_STRING),
     (EXCEP_SEVERITY_ERROR, EXCEP_SEVERITY_ERROR_STRING)]

/-- The pairs written in the definition of `EXCEP_CODE_STRING_BIMAP`, each
code with its `..._EXCEPTION_STRING` constant. -/
def exceptionCodeStrings : List (ExceptionCode × String) :=
  [(.GENERIC_EXCEPTION, "Generic Exception"),
   (.UNKNOWN_EXCEPTION, "Unknown Exception"),
   (.ASSERTION_EXCEPTION, "Assertion Failed Exception"),
   (.NULL_POINTER_EXCEPTION, "NULL Pointer Exception"),
   (.CAST_EXCEPTION, "Cast Exception"),
   (.INITIALIZATION_EXCEPTION, "Initialization Exception"),
   (.CALL_ONCE_EXCEPTION, "Call Once Exception"),
   (.IO_EXCEPTION, "IO Exception"),
   (.FILE_OPEN_EXCEPTION, "File Open Exception"),
   (.PARAMETER_EXCEPTION, "Invalid Parameter Exception"),
   (.ATTRIBUTE_EXCEPTION, "Attribute Exception"),
   (.INSERT_FAILED_EXCEPTION, "Insert Failed Exception"),
   (.CONCURRENCY_EXCEPTION, "Concurrency Exception"),
   (.RACE_CONDITION_EXCEPTION, "Concurrency Race Condition Exception"),
   (.DEADLOCK_EXCEPTION, "Concurrency Deadlock Exception"),
   (.MATH_EXCEPTION, "Math Exception"),
   (.DIVIDE_BY_ZERO_EXCEPTION, "Divide By Zero Exception")]

/-- Constant `EXCEP_CODE_STRING_BIMAP` of `exception_enums.hpp`, which
`enumMappings<ExceptionCode, std::string>()` returns. -/
def EXCEP_CODE_STRING_BIMAP : Bimap ExceptionCode String :=
  BI_MAP_BUILDER exceptionCodeStrings

/-- Overload `toString(const ExceptionSeverity severity)`:
`return enumToValue<std::string>(severity);`. -/
def toStringOfSeverity (severity : ExceptionSeverity) : Option String :=
  enumToValue EXCEP_SEVERITY_STRING_BIMAP severity

/-- Specialisation `stringToType<ExceptionSeverity>(str)`: the value of
`valueToEnum`, and a cast exception when `valueToEnum` throws. -/
def stringToTypeSeverity (str : String) : Except Exception ExceptionSeverity :=
  match valueToEnum EXCEP_SEVERITY_STRING_BIMAP str with
  | some severity => .ok severity
  | none => .error (throwCastException "Invalid/Unknown enumeration string name")

/-- Specialisation `stringToTypeNoThrow<ExceptionSeverity>(str)`: the value of
`valueToEnum`, and `EXCEP_SEVERITY_ERROR` when `valueToEnum` throws. -/
def stringToTypeNoThrowSeverity (str : String) : ExceptionSeverity :=
  match valueToEnum EXCEP_SEVERITY_STRING_BIMAP str with
  | some severity => severity
  | none => EXCEP_SEVERITY_ERROR

/-- Overload `toString(const ExceptionCode code)`:
`return enumToValue<std::string>(code);`. -/
def toStringOfCode (code : ExceptionCode) : Option String :=
  enumToValue EXCEP_CODE_STRING_BIMAP code

/-- Specialisation `stringToType<ExceptionCode>(str)`: the value of
`valueToEnum`, and a cast exception when `valueToEnum` throws. -/
def stringToTypeCode (str : String) : Except Exception ExceptionCode :=
  match valueToEnum EXCEP_CODE_STRING_BIMAP str with
  | some code => .ok code
  | none => .error (throwCastException "Invalid/Unknown enumeration string name")

/-- Specialisation `stringToTypeNoThrow<ExceptionCode>(str)`: the value of
`valueToEnum`, and `UNKNOWN_EXCEPTION` when `valueToEnum` throws. -/
def stringToTypeNoThrowCode (str : String) : ExceptionCode :=
  match valueToEnum EXCEP_CODE_STRING_BIMAP str with
  | some code => code
  | none => .UNKNOWN_EXCEPTION

/-! ## Rendering that runs user code -/

/-- The loop `forEach (LoggingSink& logsink, sinks) { logsink.sinkMessage(level, toString(msg)); }`
of the template `Logger::logMessage<T>`, as `forEachSinkToString`, for a
`toString` whose evaluations need not agree: `toString(msg)` may run user code
(`castable.toString()` in `stringutil.hpp`), and `toStringAt i msg` is the
result of the evaluation made in the iteration for the sink at position `i`. -/
def forEachSinkToStringAt {T : Type} (time : Nat → SystemTime)
    (toStringAt : Nat → T → Except Exception String) (level : LogLevel) (msg : T) :
    List Sink → Nat → Nat → LoopExit
  | [], reads, _ => ⟨[], reads, [], none⟩
  | logsink :: rest, reads, i =>
    match toStringAt i msg with
    | .error e => ⟨logsink :: rest, reads, [.toString], some e⟩
    | .ok text =>
      let r := logsink.sinkMessage (time reads) level text
      match r.raised with
      | some e =>
        ⟨r.state :: rest, reads + 1, [.toString, .sinkMessage i level text], some e⟩
      | none =>
        let k := forEachSinkToStringAt time toStringAt level msg rest (reads + 1) (i + 1)
        ⟨r.state :: k.sinks, k.reads,
          .toString :: .sinkMessage i level text :: k.trace, k.raised⟩

/-- Member template `Logger::logMessage<T>(LogLevel level, const T& msg)`, as
`Logger.logMessageT`, for a `toString` whose evaluations need not agree. -/
def Logger.logMessageTAt {T : Type} (time : Nat → SystemTime)
    (toStringAt : Nat → T → Except Exception String) (l : Logger) (reads : Nat)
    (level : LogLevel) (msg : T) : Run :=
  let k := forEachSinkToStringAt time toStringAt level msg l.sinks reads 0
  ⟨{ l with sinks := k.sinks }, k.reads, k.trace, k.raised⟩

/-! ## Concrete sinks and clocks used in the examples -/

/-- A clock whose k-th read returns k. -/
def tickClock : Nat → SystemTime := fun k => k

/-- A live application handle. -/
def liveApp : ApplicationWPtr := ⟨1, false⟩

/-- An expired application handle. -/
def deadApp : ApplicationWPtr := ⟨1, true⟩

/-- The exception a failing backend throws. -/
def backendFailure : Exception :=
  ⟨.IO_EXCEPTION, EXCEP_SEVERITY_ERROR, "backend failure"⟩

/-- A fresh synchronous recording sink: `processMessage` records and never
throws. -/
def recordingSink : Sink := .direct ⟨fun _ => none, []⟩

/-- A fresh synchronous sink whose `processMessage` throws on every message. -/
def failingSink : Sink := .direct ⟨fun _ => some backendFailure, []⟩

/-- A fresh queue sink whose `processMessage` never throws. -/
def queueSink : TSQueueSink :=
  { raises := fun _ => none, received := [], application := liveApp,
    msgQueue := ⟨[]⟩, condLock := ⟨0⟩ }

/-- An overload of `toString` that always succeeds, for the examples. -/
def renderBool : Bool → Except Exception String
  | true => .ok "true"
  | false => .ok "false"

/-- A `toString` that runs user code with a call counter: its first evaluation
gives "1", every later one "2". -/
def countingRender : Nat → Unit → Except Exception String :=
  fun i _ => .ok (if i = 0 then "1" else "2")

/-! ## Fan-out of `Logger::logMessage` -/

theorem foldl_addSink_sinks (added : List Sink) :
    ∀ l : Logger, (added.foldl Logger.addSink l).sinks = l.sinks ++ added := by
  induction added with
  | nil => intro l; simp
  | cons s rest ih =>
    intro l
    simp [List.foldl_cons, ih, Logger.addSink]

theorem forEachSinkMessage_trace (time : Nat → SystemTime) (level : LogLevel)
    (msg : String) :
    ∀ (ss : List Sink) (reads i : Nat),
      (forEachSinkMessage time level msg ss reads i).raised = none →
      (forEachSinkMessage time level msg ss reads i).trace =
        (List.range' i ss.length).map (fun j => Event.sinkMessage j level msg) := by
  intro ss
  induction ss with
  | nil => intro reads i _; simp [forEachSinkMessage]
  | cons s rest ih =>
    intro reads i h
    unfold forEachSinkMessage at h ⊢
    cases hr : (s.sinkMessage (time reads) level msg).raised with
    | some e => simp [hr] at h
    | none =>
      simp only [hr] at h ⊢
      simp [ih (reads + 1) (i + 1) h, List.range'_succ]

theorem forEachSinkMessage_sinks (time : Nat → SystemTime) (level : LogLevel)
    (msg : String) :
    ∀ (ss : List Sink) (reads i : Nat),
      (forEachSinkMessage time level msg ss reads i).raised = none →
      ∀ j : Nat, (forEachSinkMessage time level msg ss reads i).sinks[j]? =
        (ss[j]?).map (fun s => (s.sinkMessage (time (reads + j)) level msg).state) := by
  intro ss
  induction ss with
  | nil => intro reads i _ j; simp [forEachSinkMessage]
  | cons s rest ih =>
    intro reads i h j
    unfold forEachSinkMessage at h ⊢
    cases hr : (s.sinkMessage (time reads) level msg).raised with
    | some e => simp [hr] at h
    | none =>
      simp only [hr] at h ⊢
      cases j with
      | zero => simp
      | succ j =>
        simp only [List.getElem?_cons_succ]
        rw [ih (reads + 1) (i + 1) h j]
        have : reads + 1 + j = reads + (j + 1) := by omega
        rw [this]

/-- C1, as the code has it: for a Logger whose sinks were added in the order
`added`, a call `logMessage(level, text)` that returns has called `sinkMessage(level, text)` on the
sinks at positions 0, 1, .., n-1 of that order, once each and in that order,
with the level and the text it was given; each sink is left in the state its
own `sinkMessage(level, text)` produces. -/
theorem logMessage_calls_each_sink_once_in_order (time : Nat → SystemTime)
    (logname : String) (app : ApplicationWPtr) (added : List Sink) (reads : Nat)
    (level : LogLevel) (text : String)
    (returns : ((added.foldl Logger.addSink (Logger.ctor logname app)).logMessage
      time reads level text).raised = none) :
    (added.foldl Logger.addSink (Logger.ctor logname app)).sinks = added ∧
    ((added.foldl Logger.addSink (Logger.ctor logname app)).logMessage
      time reads level text).trace =
        (List.range added.length).map (fun i => Event.sinkMessage i level text) ∧
    ∀ i : Nat, ((added.foldl Logger.addSink (Logger.ctor logname app)).logMessage
      time reads level text).logger.sinks[i]? =
        (added[i]?).map (fun s => (s.sinkMessage (time (reads + i)) level text).state) := by
  have hs : (added.foldl Logger.addSink (Logger.ctor logname app)).sinks = added := by
    rw [foldl_addSink_sinks]; simp [Logger.ctor]
  simp only [Logger.logMessage, hs] at returns ⊢
  refine ⟨trivial, ?_, ?_⟩
  · rw [forEachSinkMessage_trace time level text added reads 0 returns,
      List.range_eq_range']
  · exact forEachSinkMessage_sinks time level text added reads 0 returns

theorem logMessage_calls_each_sink_once_in_order_witness :
    ((([recordingSink, Sink.queued queueSink]).foldl Logger.addSink
        (Logger.ctor "main" liveApp)).logMessage
      tickClock 0 LogLevel.LOG_INFO "a").raised = none ∧
    ((([recordingSink, Sink.queued queueSink]).foldl Logger.addSink
        (Logger.ctor "main" liveApp)).logMessage
      tickClock 0 LogLevel.LOG_INFO "a").trace =
        [Event.sinkMessage 0 LogLevel.LOG_INFO "a",
         Event.sinkMessage 1 LogLevel.LOG_INFO "a"] :=
  ⟨rfl, (logMessage_calls_each_sink_once_in_order tickClock "main" liveApp
    [recordingSink, Sink.queued queueSink] 0 LogLevel.LOG_INFO "a" rfl).2.1⟩

/-- C1 fails as stated: on a Logger whose sinks were added in the order
failing sink, recording sink, the call `logMessage(LOG_INFO, "a")` calls
`sinkMessage` on the first sink only; the exception of that sink leaves the
loop and the second sink is never called. -/
theorem logMessage_skips_sinks_after_a_failing_one :
    ((([failingSink, recordingSink]).foldl Logger.addSink
        (Logger.ctor "main" liveApp)).logMessage
      tickClock 0 LogLevel.LOG_INFO "a").trace =
        [Event.sinkMessage 0 LogLevel.LOG_INFO "a"] ∧
    ((([failingSink, recordingSink]).foldl Logger.addSink
        (Logger.ctor "main" liveApp)).logMessage
      tickClock 0 LogLevel.LOG_INFO "a").raised = some backendFailure ∧
    (((([failingSink, recordingSink]).foldl Logger.addSink
        (Logger.ctor "main" liveApp)).logMessage
      tickClock 0 LogLevel.LOG_INFO "a").logger.sinks[1]?).map Sink.received = some [] :=
  ⟨rfl, rfl, rfl⟩

/-! ## Rendering in the template `Logger::logMessage<T>` -/

theorem forEachSinkToString_count {T : Type} (time : Nat → SystemTime)
    (toString : T → Except Exception String) (level : LogLevel) (msg : T) :
    ∀ (ss : List Sink) (reads i : Nat),
      (forEachSinkToString time toString level msg ss reads i).raised = none →
      (forEachSinkToString time toString level msg ss reads i).trace.count Event.toString =
        ss.length := by
  intro ss
  induction ss with
  | nil => intro reads i _; simp [forEachSinkToString]
  | cons s rest ih =>
    intro reads i h
    unfold forEachSinkToString at h ⊢
    cases ht : toString msg with
    | error e => simp [ht] at h
    | ok text =>
      simp only [ht] at h ⊢
      cases hr : (s.sinkMessage (time reads) level text).raised with
      | some e => simp [hr] at h
      | none =>
        simp only [hr] at h ⊢
        simp [List.count_cons, ih (reads + 1) (i + 1) h]

/-- A call of the generic `logMessage(level, v)` that returns has evaluated
`toString(v)` as many times as the Logger has sinks, for a `toString` whose
evaluations agree. -/
theorem logMessageT_renders_once_per_sink {T : Type} (time : Nat → SystemTime)
    (toString : T → Except Exception String) (l : Logger) (reads : Nat)
    (level : LogLevel) (v : T)
    (returns : (l.logMessageT time toString reads level v).raised = none) :
    (l.logMessageT time toString reads level v).trace.count Event.toString =
      l.sinks.length := by
  simp only [Logger.logMessageT] at returns ⊢
  exact forEachSinkToString_count time toString level v l.sinks reads 0 returns

theorem logMessageT_renders_once_per_sink_witness :
    ((Logger.mk [Sink.queued queueSink, recordingSink, recordingSink] "main"
        liveApp).logMessageT tickClock renderBool 0 LogLevel.LOG_INFO true).raised = none ∧
    ((Logger.mk [Sink.queued queueSink, recordingSink, recordingSink] "main"
        liveApp).logMessageT tickClock renderBool 0 LogLevel.LOG_INFO
          true).trace.count Event.toString = 3 :=
  ⟨rfl, logMessageT_renders_once_per_sink tickClock renderBool
    (Logger.mk [Sink.queued queueSink, recordingSink, recordingSink] "main" liveApp)
    0 LogLevel.LOG_INFO true rfl⟩

/-- C2 fails as stated: on a Logger with two sinks one call of the generic
`logMessage` evaluates `toString` twice, and on a Logger without sinks not at
all. -/
theorem logMessageT_renders_twice_for_two_sinks :
    ((Logger.mk [recordingSink, Sink.queued queueSink] "main" liveApp).logMessageT
        tickClock renderBool 0 LogLevel.LOG_INFO true).trace =
      [Event.toString, Event.sinkMessage 0 LogLevel.LOG_INFO "true",
       Event.toString, Event.sinkMessage 1 LogLevel.LOG_INFO "true"] ∧
    ((Logger.mk [recordingSink, Sink.queued queueSink] "main" liveApp).logMessageT
        tickClock renderBool 0 LogLevel.LOG_INFO true).trace.count Event.toString = 2 ∧
    ((Logger.mk [] "main" liveApp).logMessageT
        tickClock renderBool 0 LogLevel.LOG_INFO true).trace.count Event.toString = 0 := by
  refine ⟨rfl, ?_, ?_⟩ <;> decide

/-! ## Level chosen by `Logger::logException` -/

theorem logExceptionLevel_eq (severity : ExceptionSeverity) :
    Logger.logExceptionLevel severity =
      if severity.value = 0 then LogLevel.LOG_INFO
      else if severity.value = 5 then LogLevel.LOG_WARNING
      else LogLevel.LOG_ERROR := by
  obtain ⟨n⟩ := severity
  simp only [Logger.logExceptionLevel, EXCEP_SEVERITY_NOTICE, EXCEP_SEVERITY_WARNING,
    EXCEP_SEVERITY_ERROR, ExceptionSeverity.mk.injEq]
  split_ifs <;> rfl

theorem forEachSinkToString_levels {T : Type} (time : Nat → SystemTime)
    (toString : T → Except Exception String) (level : LogLevel) (msg : T) :
    ∀ (ss : List Sink) (reads i j : Nat) (lvl : LogLevel) (text : String),
      Event.sinkMessage j lvl text ∈
        (forEachSinkToString time toString level msg ss reads i).trace →
      lvl = level := by
  intro ss
  induction ss with
  | nil => intro reads i j lvl text h; simp [forEachSinkToString] at h
  | cons s rest ih =>
    intro reads i j lvl text h
    unfold forEachSinkToString at h
    cases ht : toString msg with
    | error e => simp [ht] at h
    | ok rendered =>
      simp only [ht] at h
      cases hr : (s.sinkMessage (time reads) level rendered).raised with
      | some e =>
        simp only [hr] at h
        simp at h
        exact h.2.1
      | none =>
        simp only [hr] at h
        simp only [List.mem_cons] at h
        rcases h with h | h | h
        · cases h
        · cases h; rfl
        · exact ih (reads + 1) (i + 1) j lvl text h

/-- C3: `Logger::logException` picks the level from the severity of the
exception alone, by a total function: `EXCEP_SEVERITY_NOTICE` gives
`LOG_INFO`, `EXCEP_SEVERITY_WARNING` gives `LOG_WARNING`,
`EXCEP_SEVERITY_ERROR` gives `LOG_ERROR`, and every other severity value gives
`LOG_ERROR`; the exception is then logged by one call of the generic
`logMessage` at that level. -/
theorem logException_level_from_severity {X : Type} (time : Nat → SystemTime)
    (getExceptionSeverity : X → ExceptionSeverity)
    (toString : X → Except Exception String) (l : Logger) (reads : Nat) (x : X) :
    Logger.logExceptionLevel EXCEP_SEVERITY_NOTICE = LogLevel.LOG_INFO ∧
    Logger.logExceptionLevel EXCEP_SEVERITY_WARNING = LogLevel.LOG_WARNING ∧
    Logger.logExceptionLevel EXCEP_SEVERITY_ERROR = LogLevel.LOG_ERROR ∧
    (∀ severity : ExceptionSeverity,
      Logger.logExceptionLevel severity =
        if severity = EXCEP_SEVERITY_NOTICE then LogLevel.LOG_INFO
        else if severity = EXCEP_SEVERITY_WARNING then LogLevel.LOG_WARNING
        else LogLevel.LOG_ERROR) ∧
    l.logException time getExceptionSeverity toString reads x =
      l.logMessageT time toString reads
        (if (getExceptionSeverity x).value = 0 then LogLevel.LOG_INFO
         else if (getExceptionSeverity x).value = 5 then LogLevel.LOG_WARNING
         else LogLevel.LOG_ERROR) x := by
  refine ⟨by decide, by decide, by decide, ?_, ?_⟩
  · intro severity
    simp only [Logger.logExceptionLevel]
    split_ifs <;> rfl
  · simp only [Logger.logException, logExceptionLevel_eq]

/-- C4: whatever integer the severity of the exception holds, the level
`Logger::logException` logs at is not `LOG_DEBUG`: the level it picks is not,
and no `sinkMessage` call it makes carries `LOG_DEBUG`. -/
theorem logException_never_logs_at_debug {X : Type} (time : Nat → SystemTime)
    (getExceptionSeverity : X → ExceptionSeverity)
    (toString : X → Except Exception String) (l : Logger) (reads : Nat) (x : X) :
    (∀ n : Int, Logger.logExceptionLevel ⟨n⟩ ≠ LogLevel.LOG_DEBUG) ∧
    ∀ (j : Nat) (text : String),
      Event.sinkMessage j LogLevel.LOG_DEBUG text ∉
        (l.logException time getExceptionSeverity toString reads x).trace := by
  have hlevel : ∀ severity : ExceptionSeverity,
      Logger.logExceptionLevel severity ≠ LogLevel.LOG_DEBUG := by
    intro severity
    rw [logExceptionLevel_eq]
    split_ifs <;> decide
  refine ⟨fun n => hlevel ⟨n⟩, ?_⟩
  intro j text hmem
  simp only [Logger.logException, Logger.logMessageT] at hmem
  exact hlevel _ (forEachSinkToString_levels time toString _ x l.sinks reads 0 j _ text hmem).symm

/-! ## A synchronous sink behind a `Logger` -/

theorem logMessages_direct_record (time : Nat → SystemTime) (p : Nat) :
    ∀ (calls : List (LogLevel × String)) (l : Logger) (reads : Nat) (s : LoggingSink),
      l.sinks[p]? = some (Sink.direct s) →
      (Logger.logMessages time l reads calls).raised = none →
      ∃ s' : LoggingSink,
        (Logger.logMessages time l reads calls).logger.sinks[p]? = some (Sink.direct s') ∧
        (Sink.direct s').record = (Sink.direct s).record ++ calls := by
  intro calls
  induction calls with
  | nil =>
    intro l reads s hs _
    exact ⟨s, by simpa [Logger.logMessages] using hs, by simp⟩
  | cons c rest ih =>
    obtain ⟨level, msg⟩ := c
    intro l reads s hs h
    unfold Logger.logMessages at h ⊢
    cases hr : (l.logMessage time reads level msg).raised with
    | some e => simp [hr] at h
    | none =>
      simp only [hr] at h ⊢
      have hr' : (forEachSinkMessage time level msg l.sinks reads 0).raised = none := by
        simpa [Logger.logMessage] using hr
      have hp : (l.logMessage time reads level msg).logger.sinks[p]? =
          some (Sink.direct ⟨s.raises, s.received ++ [⟨level, msg, time (reads + p)⟩]⟩) := by
        simp only [Logger.logMessage]
        rw [forEachSinkMessage_sinks time level msg l.sinks reads 0 hr' p, hs]
        rfl
      obtain ⟨s', h1, h2⟩ := ih _ _ _ hp h
      refine ⟨s', h1, ?_⟩
      rw [h2]
      simp [Sink.record, Sink.received]

/-- C5: a Logger owns, among other sinks, a fresh synchronous sink (one that
uses `LoggingSink::sinkMessage` and records in `processMessage`).  Once the
calls `logMessage(l1,t1)` .. `logMessage(lk,tk)` have returned, the record of
that sink is exactly `(l1,t1)` .. `(lk,tk)` in call order, and no flush was
needed. -/
theorem synchronous_sink_records_calls_in_order (time : Nat → SystemTime)
    (before after : List Sink) (raises : TimeLevelString → Option Exception)
    (logname : String) (app : ApplicationWPtr) (reads : Nat)
    (calls : List (LogLevel × String))
    (returned : (Logger.logMessages time
      ⟨before ++ Sink.direct ⟨raises, []⟩ :: after, logname, app⟩ reads calls).raised = none) :
    ((Logger.logMessages time
      ⟨before ++ Sink.direct ⟨raises, []⟩ :: after, logname, app⟩ reads
        calls).logger.sinks[before.length]?).map Sink.record = some calls := by
  have hs : (Logger.mk (before ++ Sink.direct ⟨raises, []⟩ :: after) logname
      app).sinks[before.length]? = some (Sink.direct ⟨raises, []⟩) := by
    show (before ++ Sink.direct ⟨raises, []⟩ :: after)[before.length]? = _
    rw [List.getElem?_append_right (le_refl _)]
    simp
  obtain ⟨s', h1, h2⟩ :=
    logMessages_direct_record time before.length calls _ reads _ hs returned
  rw [h1, Option.map_some', h2]
  simp [Sink.record, Sink.received]

theorem synchronous_sink_records_calls_in_order_witness :
    (Logger.logMessages tickClock
      ⟨[Sink.queued queueSink] ++ Sink.direct ⟨fun _ => none, []⟩ :: [], "main", liveApp⟩ 0
      [(LogLevel.LOG_INFO, "a"), (LogLevel.LOG_ERROR, "b")]).raised = none ∧
    ((Logger.logMessages tickClock
      ⟨[Sink.queued queueSink] ++ Sink.direct ⟨fun _ => none, []⟩ :: [], "main", liveApp⟩ 0
      [(LogLevel.LOG_INFO, "a"), (LogLevel.LOG_ERROR, "b")]).logger.sinks[1]?).map
        Sink.record = some [(LogLevel.LOG_INFO, "a"), (LogLevel.LOG_ERROR, "b")] :=
  ⟨rfl, synchronous_sink_records_calls_in_order tickClock [Sink.queued queueSink] []
    (fun _ => none) "main" liveApp 0
    [(LogLevel.LOG_INFO, "a"), (LogLevel.LOG_ERROR, "b")] rfl⟩

/-! ## The queue sink -/

theorem sinkMessages_queue (time : Nat → SystemTime) :
    ∀ (calls : List (LogLevel × String)) (s : TSQueueSink) (reads : Nat),
      (s.sinkMessages time reads calls).msgQueue.items =
        s.msgQueue.items ++ stampAll time reads calls ∧
      (s.sinkMessages time reads calls).received = s.received ∧
      (s.sinkMessages time reads calls).condLock.notifications =
        s.condLock.notifications + calls.length := by
  intro calls
  induction calls with
  | nil => intro s reads; simp [TSQueueSink.sinkMessages, stampAll]
  | cons c rest ih =>
    obtain ⟨level, msg⟩ := c
    intro s reads
    obtain ⟨h1, h2, h3⟩ := ih (s.sinkMessage (time reads) level msg) (reads + 1)
    simp only [TSQueueSink.sinkMessages, stampAll, h1, h2, h3]
    refine ⟨?_, ?_, ?_⟩
    · simp [TSQueueSink.sinkMessage, TSQueue.enqueue]
    · rfl
    · simp [TSQueueSink.sinkMessage, ConditionLockable.notifyOne]; omega

theorem stampAll_length (time : Nat → SystemTime) :
    ∀ (calls : List (LogLevel × String)) (reads : Nat),
      (stampAll time reads calls).length = calls.length := by
  intro calls
  induction calls with
  | nil => intro reads; rfl
  | cons c rest ih =>
    obtain ⟨level, msg⟩ := c
    intro reads
    simp [stampAll, ih]

/-- C6, as the code has it: `TSQueueSink::flush()` has an empty body, so it
returns at once and leaves the sink as it was.  When it is called after K
`sinkMessage` calls made on the same thread, with no step of the worker in
between, it returns with all K messages still pending at the tail of the queue
and none of them passed to `processMessage`. -/
theorem TSQueueSink_flush_leaves_messages_pending (time : Nat → SystemTime)
    (s : TSQueueSink) (reads : Nat) (calls : List (LogLevel × String)) :
    ((s.sinkMessages time reads calls).flush).msgQueue.items =
      s.msgQueue.items ++ stampAll time reads calls ∧
    ((s.sinkMessages time reads calls).flush).received = s.received ∧
    (stampAll time reads calls).length = calls.length := by
  obtain ⟨h1, h2, _⟩ := sinkMessages_queue time calls s reads
  exact ⟨by simpa [TSQueueSink.flush] using h1, by simpa [TSQueueSink.flush] using h2,
    stampAll_length time calls reads⟩

/-- C6 fails as stated: after one `sinkMessage` call, `flush()` on the same
thread returns while the message is still pending in the queue and nothing has
been passed to `processMessage`. -/
theorem TSQueueSink_flush_returns_before_processing :
    ((queueSink.sinkMessages tickClock 0 [(LogLevel.LOG_INFO, "a")]).flush).msgQueue.items =
      [⟨LogLevel.LOG_INFO, "a", 0⟩] ∧
    ((queueSink.sinkMessages tickClock 0 [(LogLevel.LOG_INFO, "a")]).flush).received = [] :=
  ⟨rfl, rfl⟩

/-- C7: `TSQueueSink::sinkMessage(level, text)` appends one message, carrying
that level and that text, at the tail of the queue; the messages already
queued keep their places; the worker is signalled once; `processMessage` is not
invoked (the messages handed to it are the same before and after), the rest of
the sink is untouched and the call does not throw. -/
theorem TSQueueSink_sinkMessage_appends_one (s : TSQueueSink) (now : SystemTime)
    (level : LogLevel) (text : String) :
    (s.sinkMessage now level text).msgQueue.items =
      s.msgQueue.items ++ [⟨level, text, now⟩] ∧
    (s.sinkMessage now level text).msgQueue.items.length = s.msgQueue.items.length + 1 ∧
    (∀ i : Nat, i < s.msgQueue.items.length →
      (s.sinkMessage now level text).msgQueue.items[i]? = s.msgQueue.items[i]?) ∧
    (s.sinkMessage now level text).condLock.notifications =
      s.condLock.notifications + 1 ∧
    (s.sinkMessage now level text).received = s.received ∧
    (s.sinkMessage now level text).processed = s.processed ∧
    (s.sinkMessage now level text).application = s.application ∧
    ((Sink.queued s).sinkMessage now level text).raised = none := by
  refine ⟨rfl, ?_, ?_, rfl, rfl, rfl, rfl, rfl⟩
  · simp [TSQueueSink.sinkMessage, TSQueue.enqueue]
  · intro i hi
    simp only [TSQueueSink.sinkMessage, TSQueue.enqueue]
    rw [List.getElem?_append_left hi]

theorem run_conserves_messages (time : Nat → SystemTime) :
    ∀ (schedule : List Action) (w : SinkThread),
      (w.run time schedule).sink.received ++ (w.run time schedule).batch ++
          (w.run time schedule).sink.msgQueue.items =
        w.sink.received ++ w.batch ++ w.sink.msgQueue.items ++
          enqueuedBy time w.reads schedule := by
  intro schedule
  induction schedule with
  | nil => intro w; simp [SinkThread.run, enqueuedBy]
  | cons a rest ih =>
    intro w
    have hrun : w.run time (a :: rest) = (w.step time a).run time rest := rfl
    rw [hrun, ih]
    cases a with
    | sinkMessage level msg =>
      simp [SinkThread.step, enqueuedBy, TSQueueSink.sinkMessage, TSQueue.enqueue]
    | flush => simp [SinkThread.step, enqueuedBy, TSQueueSink.flush]
    | drain =>
      cases hb : w.batch with
      | nil => simp [SinkThread.step, enqueuedBy, SinkThread.drain, hb]
      | cons m ms => simp [SinkThread.step, enqueuedBy, SinkThread.drain, hb]
    | processNext =>
      cases hb : w.batch with
      | nil => simp [SinkThread.step, enqueuedBy, SinkThread.processNext, hb]
      | cons m ms =>
        simp [SinkThread.step, enqueuedBy, SinkThread.processNext, hb,
          LoggingSink.processMessage]

theorem run_append (time : Nat → SystemTime) (w : SinkThread) (a b : List Action) :
    w.run time (a ++ b) = (w.run time a).run time b := by
  simp [SinkThread.run, List.foldl_append]

theorem run_processNext_all (time : Nat → SystemTime) :
    ∀ (n : Nat) (w : SinkThread), w.batch.length = n →
      (w.run time (List.replicate n Action.processNext)).sink.received =
        w.sink.received ++ w.batch ∧
      (w.run time (List.replicate n Action.processNext)).batch = [] ∧
      (w.run time (List.replicate n Action.processNext)).sink.msgQueue = w.sink.msgQueue := by
  intro n
  induction n with
  | zero =>
    intro w hw
    have hb : w.batch = [] := List.length_eq_zero.mp hw
    simp [SinkThread.run, hb]
  | succ n ih =>
    intro w hw
    cases hb : w.batch with
    | nil => simp [hb] at hw
    | cons m ms =>
      have hlen : (w.step time Action.processNext).batch.length = n := by
        simp [SinkThread.step, SinkThread.processNext, hb] at hw ⊢
        exact hw
      have hrun : w.run time (List.replicate (n + 1) Action.processNext) =
          (w.step time Action.processNext).run time (List.replicate n Action.processNext) := rfl
      obtain ⟨h1, h2, h3⟩ := ih (w.step time Action.processNext) hlen
      rw [hrun, h1, h2, h3]
      simp [SinkThread.step, SinkThread.processNext, hb, LoggingSink.processMessage]

theorem run_catchUp_received (time : Nat → SystemTime) (w : SinkThread) :
    (w.run time w.catchUp).sink.received =
      w.sink.received ++ w.batch ++ w.sink.msgQueue.items := by
  unfold SinkThread.catchUp
  rw [run_append, run_append]
  obtain ⟨h1, h2, h3⟩ := run_processNext_all time w.batch.length w rfl
  generalize w.run time (List.replicate w.batch.length Action.processNext) = w1 at h1 h2 h3
  have hd : w1.run time [Action.drain] = w1.drain := rfl
  have hd1 : w1.drain.batch = w.sink.msgQueue.items := by
    simp [SinkThread.drain, h2, h3]
  have hd2 : w1.drain.sink.received = w.sink.received ++ w.batch := by
    simp [SinkThread.drain, h2, h1]
  obtain ⟨k1, _, _⟩ := run_processNext_all time w.sink.msgQueue.items.length w1.drain
    (by rw [hd1])
  rw [hd, k1, hd1, hd2]

/-- C8: for every interleaving of `sinkMessage` calls and worker steps on a
fresh queue sink, the messages the worker has passed to `processMessage`,
followed by the rest of its batch and by the queue, are the enqueued messages
in the order they were enqueued.  So the messages passed to `processMessage`
are an initial segment of the enqueued sequence (nothing is reordered, whatever
the levels), and once the worker has caught up they are the whole of it. -/
theorem worker_processes_in_enqueue_order (time : Nat → SystemTime)
    (raises : TimeLevelString → Option Exception) (app : ApplicationWPtr)
    (reads : Nat) (schedule : List Action) :
    ((SinkThread.mk ⟨⟨raises, []⟩, app, ⟨[]⟩, ⟨0⟩⟩ [] reads).run time schedule).sink.received ++
      ((SinkThread.mk ⟨⟨raises, []⟩, app, ⟨[]⟩, ⟨0⟩⟩ [] reads).run time schedule).batch ++
      ((SinkThread.mk ⟨⟨raises, []⟩, app, ⟨[]⟩, ⟨0⟩⟩ [] reads).run time
        schedule).sink.msgQueue.items = enqueuedBy time reads schedule ∧
    ((SinkThread.mk ⟨⟨raises, []⟩, app, ⟨[]⟩, ⟨0⟩⟩ [] reads).run time schedule).sink.received <+:
      enqueuedBy time reads schedule ∧
    ((SinkThread.mk ⟨⟨raises, []⟩, app, ⟨[]⟩, ⟨0⟩⟩ [] reads).run time
      (schedule ++ ((SinkThread.mk ⟨⟨raises, []⟩, app, ⟨[]⟩, ⟨0⟩⟩ [] reads).run time
        schedule).catchUp)).sink.received = enqueuedBy time reads schedule := by
  have h := run_conserves_messages time schedule
    (SinkThread.mk ⟨⟨raises, []⟩, app, ⟨[]⟩, ⟨0⟩⟩ [] reads)
  simp only [List.append_nil, List.nil_append] at h
  refine ⟨h, ?_, ?_⟩
  · rw [← h, List.append_assoc]
    exact List.prefix_append _ _
  · rw [run_append, run_catchUp_received, h]

/-! ## Exceptions leaving `Logger::logMessage` -/

theorem Sink.sinkMessage_raised (s : Sink) (now : SystemTime) (level : LogLevel)
    (msg : String) : (s.sinkMessage now level msg).raised = s.raisesOn now level msg := by
  cases s <;> rfl

theorem forEachSinkMessage_raised_iff (time : Nat → SystemTime) (level : LogLevel)
    (msg : String) :
    ∀ (ss : List Sink) (reads i : Nat),
      (forEachSinkMessage time level msg ss reads i).raised = none ↔
        ∀ (j : Nat) (s : Sink), ss[j]? = some s →
          s.raisesOn (time (reads + j)) level msg = none := by
  intro ss
  induction ss with
  | nil => intro reads i; simp [forEachSinkMessage]
  | cons s rest ih =>
    intro reads i
    unfold forEachSinkMessage
    cases hr : (s.sinkMessage (time reads) level msg).raised with
    | some e =>
      simp only [hr]
      constructor
      · intro h; cases h
      · intro h
        have h0 := h 0 s (by simp)
        rw [Sink.sinkMessage_raised] at hr
        simp [hr] at h0
    | none =>
      simp only [hr]
      rw [ih (reads + 1) (i + 1)]
      rw [Sink.sinkMessage_raised] at hr
      constructor
      · intro h j t hj
        cases j with
        | zero =>
          simp at hj
          subst hj
          simpa using hr
        | succ j =>
          simp only [List.getElem?_cons_succ] at hj
          have := h j t hj
          have e : reads + 1 + j = reads + (j + 1) := by omega
          rwa [e] at this
      · intro h j t hj
        have := h (j + 1) t (by simpa using hj)
        have e : reads + 1 + j = reads + (j + 1) := by omega
        rwa [e]

theorem forEachSinkToString_ok {T : Type} (time : Nat → SystemTime)
    (toString : T → Except Exception String) (level : LogLevel) (msg : T) (text : String)
    (ht : toString msg = .ok text) :
    ∀ (ss : List Sink) (reads i : Nat),
      (forEachSinkToString time toString level msg ss reads i).raised =
        (forEachSinkMessage time level text ss reads i).raised ∧
      (forEachSinkToString time toString level msg ss reads i).sinks =
        (forEachSinkMessage time level text ss reads i).sinks ∧
      (forEachSinkToString time toString level msg ss reads i).reads =
        (forEachSinkMessage time level text ss reads i).reads := by
  intro ss
  induction ss with
  | nil => intro reads i; simp [forEachSinkToString, forEachSinkMessage]
  | cons s rest ih =>
    intro reads i
    unfold forEachSinkToString forEachSinkMessage
    simp only [ht]
    cases hr : (s.sinkMessage (time reads) level text).raised with
    | some e => simp
    | none =>
      obtain ⟨h1, h2, h3⟩ := ih (reads + 1) (i + 1)
      simp [h1, h2, h3]

/-- C9, as the code has it: `Logger::logMessage` has no handler, so it returns
normally exactly when no `sinkMessage` call of its loop throws.  A queue sink's
`sinkMessage` never throws, whatever its `processMessage` does; a synchronous
sink's `sinkMessage` throws exactly what its `processMessage` throws.  The
generic overload returns normally exactly when the Logger has no sink, or the
rendering succeeds and no `sinkMessage` call throws. -/
theorem logMessage_raises_iff_a_sink_raises (time : Nat → SystemTime) (l : Logger)
    (reads : Nat) (level : LogLevel) (text : String) :
    ((l.logMessage time reads level text).raised = none ↔
      ∀ (i : Nat) (s : Sink), l.sinks[i]? = some s →
        s.raisesOn (time (reads + i)) level text = none) ∧
    (∀ (q : TSQueueSink) (now : SystemTime),
      ((Sink.queued q).sinkMessage now level text).raised = none) ∧
    (∀ (d : LoggingSink) (now : SystemTime),
      ((Sink.direct d).sinkMessage now level text).raised = d.raises ⟨level, text, now⟩) ∧
    (∀ (T : Type) (toString : T → Except Exception String) (v : T),
      (l.logMessageT time toString reads level v).raised = none ↔
        l.sinks = [] ∨ ∃ rendered : String, toString v = .ok rendered ∧
          (l.logMessage time reads level rendered).raised = none) := by
  refine ⟨?_, fun _ _ => rfl, fun _ _ => rfl, ?_⟩
  · simp only [Logger.logMessage]
    exact forEachSinkMessage_raised_iff time level text l.sinks reads 0
  · intro T toString v
    simp only [Logger.logMessageT, Logger.logMessage]
    cases hs : l.sinks with
    | nil => simp [forEachSinkToString]
    | cons s rest =>
      cases ht : toString v with
      | error e => simp [forEachSinkToString, ht]
      | ok rendered =>
        rw [(forEachSinkToString_ok time toString level v rendered ht (s :: rest) reads 0).1]
        simp

/-- C9 fails as stated: on a Logger whose only sink is a synchronous sink with
a failing `processMessage`, `logMessage` leaves with the exception of the
backend, and so does the `sinkMessage` of that sink. -/
theorem logMessage_raises_when_backend_fails :
    ((Logger.mk [failingSink] "main" liveApp).logMessage tickClock 0
      LogLevel.LOG_INFO "a").raised = some backendFailure ∧
    (failingSink.sinkMessage 0 LogLevel.LOG_INFO "a").raised = some backendFailure :=
  ⟨rfl, rfl⟩

/-! ## The logger builder -/

/-- C10: `detail::LoggerBuilder::build(key)` fails exactly when the weak
application reference of the builder has expired, that is when
`application.lock()` is null; when the application is alive it returns a new
Logger whose name is `key`, whose application reference is the builder's and
whose sink collection is empty. -/
theorem LoggerBuilder_build_fails_iff_expired
    (throwNullPointerException : String → Exception) (b : LoggerBuilder) (key : String) :
    ((∃ e : Exception, b.build throwNullPointerException key = .error e) ↔
      b.application.lock = none) ∧
    (b.application.lock = none ↔ b.application.expired = true) ∧
    (∀ app : ApplicationPtr, b.application.lock = some app →
      ∃ l : Logger, b.build throwNullPointerException key = .ok l ∧ l.name = key ∧
        l.application = b.application ∧ l.sinks = []) := by
  obtain ⟨⟨app, expired⟩⟩ := b
  cases expired <;>
    simp [LoggerBuilder.build, ApplicationWPtr.lock, Logger.ctor]

/-! ## The synchronous sink -/

/-- C12: for a synchronous sink, `LoggingSink::sinkMessage(level, text)`
invokes `processMessage` exactly once, on a message whose `loglevel` is
`level` and whose `message` is `text` (stamped with the time of the call): the
messages handed to `processMessage` grow by that one message, and the call
leaves with whatever `processMessage` leaves with. -/
theorem LoggingSink_sinkMessage_processes_once (s : LoggingSink) (now : SystemTime)
    (level : LogLevel) (text : String) :
    (∃ m : TimeLevelString, m.loglevel = level ∧ m.message = text ∧ m.stamp = now ∧
      (s.sinkMessage now level text).state.received = s.received ++ [m] ∧
      (s.sinkMessage now level text).raised = s.raises m) ∧
    (s.sinkMessage now level text).state.received.length = s.received.length + 1 ∧
    (s.sinkMessage now level text).state.raises = s.raises ∧
    (Sink.direct s).sinkMessage now level text =
      ⟨Sink.direct (s.sinkMessage now level text).state,
        (s.sinkMessage now level text).raised⟩ := by
  refine ⟨⟨⟨level, text, now⟩, rfl, rfl, rfl, rfl, rfl⟩, ?_, rfl, rfl⟩
  simp [LoggingSink.sinkMessage, LoggingSink.processMessage]

/-- C13: the default `LoggingSink::flush()` does nothing: for every sink state
it returns the sink as it was, so the messages handed to `processMessage` and
those processed so far are the same before and after, and `processMessage` was
not invoked. -/
theorem LoggingSink_flush_is_noop (s : LoggingSink) :
    s.flush = s ∧
    s.flush.received = s.received ∧
    s.flush.processed = s.processed ∧
    (Sink.direct s).flush = Sink.direct s :=
  ⟨rfl, rfl, rfl, rfl⟩

/-! ## Order of the log levels -/

/-- C17: the numeric values of the four log levels increase strictly,
`LOG_DEBUG < LOG_INFO < LOG_WARNING < LOG_ERROR`; they are pairwise distinct
(the value determines the level) and any two levels are comparable. -/
theorem LogLevel_values_strictly_increase :
    LogLevel.LOG_DEBUG.value < LogLevel.LOG_INFO.value ∧
    LogLevel.LOG_INFO.value < LogLevel.LOG_WARNING.value ∧
    LogLevel.LOG_WARNING.value < LogLevel.LOG_ERROR.value ∧
    (∀ a b : LogLevel, a.value = b.value ↔ a = b) ∧
    (∀ a b : LogLevel, a.value ≤ b.value ∨ b.value ≤ a.value) ∧
    (∀ a : LogLevel, a.value = 0 ∨ a.value = 1 ∨ a.value = 2 ∨ a.value = 3) := by
  refine ⟨by decide, by decide, by decide, ?_, ?_, ?_⟩
  · intro a b; cases a <;> cases b <;> simp [LogLevel.value]
  · intro a b; cases a <;> cases b <;> simp [LogLevel.value]
  · intro a; cases a <;> simp [LogLevel.value]

/-! ## The generic overload against the string overload -/

theorem forEachSinkToString_calls {T : Type} (time : Nat → SystemTime)
    (toString : T → Except Exception String) (level : LogLevel) (msg : T) (text : String)
    (ht : toString msg = .ok text) :
    ∀ (ss : List Sink) (reads i : Nat),
      (forEachSinkToString time toString level msg ss reads i).trace.filter
          (fun e => decide (e ≠ Event.toString)) =
        (forEachSinkMessage time level text ss reads i).trace := by
  intro ss
  induction ss with
  | nil => intro reads i; simp [forEachSinkToString, forEachSinkMessage]
  | cons s rest ih =>
    intro reads i
    unfold forEachSinkToString forEachSinkMessage
    simp only [ht]
    cases hr : (s.sinkMessage (time reads) level text).raised with
    | some e => simp [List.filter]
    | none =>
      have h := ih (reads + 1) (i + 1)
      simp only [List.filter, decide_not] at h ⊢
      simp [h]

/-- For a `toString` whose evaluations agree: when the rendering of `v`
succeeds with the text `toString(v)`, the
generic `logMessage(level, v)` and `logMessage(level, toString(v))` leave the
Logger and every one of its sinks in the same state, leave in the same way
(normally or with the same exception), read the clock as often, and make the
same `sinkMessage` calls: the same sinks in the same order, each with the same
level and the one text `toString(v)`. -/
theorem logMessageT_same_as_logMessage_of_rendering {T : Type} (time : Nat → SystemTime)
    (toString : T → Except Exception String) (l : Logger) (reads : Nat)
    (level : LogLevel) (v : T) (text : String) (renders : toString v = .ok text) :
    (l.logMessageT time toString reads level v).logger.sinks =
      (l.logMessage time reads level text).logger.sinks ∧
    (l.logMessageT time toString reads level v).logger.name =
      (l.logMessage time reads level text).logger.name ∧
    (l.logMessageT time toString reads level v).logger.application =
      (l.logMessage time reads level text).logger.application ∧
    (l.logMessageT time toString reads level v).raised =
      (l.logMessage time reads level text).raised ∧
    (l.logMessageT time toString reads level v).reads =
      (l.logMessage time reads level text).reads ∧
    (l.logMessageT time toString reads level v).trace.filter
        (fun e => decide (e ≠ Event.toString)) =
      (l.logMessage time reads level text).trace := by
  obtain ⟨h1, h2, h3⟩ := forEachSinkToString_ok time toString level v text renders l.sinks reads 0
  exact ⟨h2, rfl, rfl, h1, h3,
    forEachSinkToString_calls time toString level v text renders l.sinks reads 0⟩

theorem logMessageT_same_as_logMessage_of_rendering_witness :
    renderBool true = .ok "true" ∧
    ((Logger.mk [recordingSink, Sink.queued queueSink] "main" liveApp).logMessageT
        tickClock renderBool 0 LogLevel.LOG_INFO true).trace.filter
        (fun e => decide (e ≠ Event.toString)) =
      ((Logger.mk [recordingSink, Sink.queued queueSink] "main" liveApp).logMessage
        tickClock 0 LogLevel.LOG_INFO "true").trace :=
  ⟨rfl, (logMessageT_same_as_logMessage_of_rendering tickClock renderBool
    (Logger.mk [recordingSink, Sink.queued queueSink] "main" liveApp) 0
    LogLevel.LOG_INFO true "true" rfl).2.2.2.2.2⟩

/-! ## The level wrappers -/

/-- C15: `logDebug(v)`, `logInfo(v)`, `logWarning(v)` and `logError(v)` are
`logMessage(LOG_DEBUG, v)`, `logMessage(LOG_INFO, v)`, `logMessage(LOG_WARNING, v)`
and `logMessage(LOG_ERROR, v)`: the same final Logger, clock reads, calls and
exception, for a value of any type and for a string; every `sinkMessage` call
a wrapper makes carries the level of the wrapper. -/
theorem level_wrappers_are_logMessage {T : Type} (time : Nat → SystemTime)
    (toString : T → Except Exception String) (l : Logger) (reads : Nat) (v : T)
    (text : String) :
    l.logDebug time toString reads v =
      l.logMessageT time toString reads LogLevel.LOG_DEBUG v ∧
    l.logInfo time toString reads v =
      l.logMessageT time toString reads LogLevel.LOG_INFO v ∧
    l.logWarning time toString reads v =
      l.logMessageT time toString reads LogLevel.LOG_WARNING v ∧
    l.logError time toString reads v =
      l.logMessageT time toString reads LogLevel.LOG_ERROR v ∧
    l.logDebugString time reads text = l.logMessage time reads LogLevel.LOG_DEBUG text ∧
    l.logInfoString time reads text = l.logMessage time reads LogLevel.LOG_INFO text ∧
    l.logWarningString time reads text = l.logMessage time reads LogLevel.LOG_WARNING text ∧
    l.logErrorString time reads text = l.logMessage time reads LogLevel.LOG_ERROR text ∧
    (∀ (j : Nat) (lvl : LogLevel) (t : String),
      (Event.sinkMessage j lvl t ∈ (l.logDebug time toString reads v).trace →
        lvl = LogLevel.LOG_DEBUG) ∧
      (Event.sinkMessage j lvl t ∈ (l.logInfo time toString reads v).trace →
        lvl = LogLevel.LOG_INFO) ∧
      (Event.sinkMessage j lvl t ∈ (l.logWarning time toString reads v).trace →
        lvl = LogLevel.LOG_WARNING) ∧
      (Event.sinkMessage j lvl t ∈ (l.logError time toString reads v).trace →
        lvl = LogLevel.LOG_ERROR)) := by
  refine ⟨rfl, rfl, rfl, rfl, rfl, rfl, rfl, rfl, ?_⟩
  intro j lvl t
  refine ⟨?_, ?_, ?_, ?_⟩ <;> intro h <;>
    exact forEachSinkToString_levels time toString _ v l.sinks reads 0 j lvl t h

/-! ## The sink collection is append-only -/

theorem Sink.evolvesTo_refl (s : Sink) : s.evolvesTo s := by
  cases s <;> simp [Sink.evolvesTo]

theorem Sink.evolvesTo_sinkMessage (s : Sink) (now : SystemTime) (level : LogLevel)
    (msg : String) : s.evolvesTo (s.sinkMessage now level msg).state := by
  cases s with
  | direct d =>
    simp [Sink.evolvesTo, Sink.sinkMessage, LoggingSink.sinkMessage,
      LoggingSink.processMessage]
  | queued q =>
    simp [Sink.evolvesTo, Sink.sinkMessage, TSQueueSink.sinkMessage, TSQueue.enqueue]

theorem forall₂_evolvesTo_refl (ss : List Sink) : List.Forall₂ Sink.evolvesTo ss ss := by
  induction ss with
  | nil => exact List.Forall₂.nil
  | cons s rest ih => exact List.Forall₂.cons (Sink.evolvesTo_refl s) ih

theorem forEachSinkMessage_evolves (time : Nat → SystemTime) (level : LogLevel)
    (msg : String) :
    ∀ (ss : List Sink) (reads i : Nat),
      List.Forall₂ Sink.evolvesTo ss (forEachSinkMessage time level msg ss reads i).sinks := by
  intro ss
  induction ss with
  | nil => intro reads i; simp [forEachSinkMessage]
  | cons s rest ih =>
    intro reads i
    unfold forEachSinkMessage
    cases hr : (s.sinkMessage (time reads) level msg).raised with
    | some e =>
      simp only [hr]
      exact List.Forall₂.cons (Sink.evolvesTo_sinkMessage s _ level msg)
        (forall₂_evolvesTo_refl rest)
    | none =>
      simp only [hr]
      exact List.Forall₂.cons (Sink.evolvesTo_sinkMessage s _ level msg)
        (ih (reads + 1) (i + 1))

theorem forEachSinkToString_evolves {T : Type} (time : Nat → SystemTime)
    (toString : T → Except Exception String) (level : LogLevel) (msg : T) :
    ∀ (ss : List Sink) (reads i : Nat),
      List.Forall₂ Sink.evolvesTo ss
        (forEachSinkToString time toString level msg ss reads i).sinks := by
  intro ss
  induction ss with
  | nil => intro reads i; simp [forEachSinkToString]
  | cons s rest ih =>
    intro reads i
    unfold forEachSinkToString
    cases ht : toString msg with
    | error e => exact forall₂_evolvesTo_refl (s :: rest)
    | ok text =>
      simp only []
      cases hr : (s.sinkMessage (time reads) level text).raised with
      | some e =>
        simp only [hr]
        exact List.Forall₂.cons (Sink.evolvesTo_sinkMessage s _ level text)
          (forall₂_evolvesTo_refl rest)
      | none =>
        simp only [hr]
        exact List.Forall₂.cons (Sink.evolvesTo_sinkMessage s _ level text)
          (ih (reads + 1) (i + 1))

/-- C16: the sink collection of a Logger is append-only.  It is empty at
construction; `addSink(s)` puts `s` at the end, keeps the sinks added before at
their positions (the old sequence is an initial segment of the new one) and
makes the collection one longer; and `logMessage` (both overloads), the level
wrappers and `logException` leave in the collection, position by position, the
same sink objects, none removed and none moved. -/
theorem Logger_sinks_append_only (time : Nat → SystemTime) (l : Logger) (reads : Nat) :
    (∀ (logname : String) (app : ApplicationWPtr), (Logger.ctor logname app).sinks = []) ∧
    (∀ s : Sink, (l.addSink s).sinks = l.sinks ++ [s] ∧
      l.sinks <+: (l.addSink s).sinks ∧
      (l.addSink s).sinks.length = l.sinks.length + 1 ∧
      (∀ i : Nat, i < l.sinks.length → (l.addSink s).sinks[i]? = l.sinks[i]?)) ∧
    (∀ (level : LogLevel) (text : String),
      List.Forall₂ Sink.evolvesTo l.sinks (l.logMessage time reads level text).logger.sinks ∧
      (l.logMessage time reads level text).logger.sinks.length = l.sinks.length) ∧
    (∀ (T : Type) (toString : T → Except Exception String) (level : LogLevel) (v : T),
      List.Forall₂ Sink.evolvesTo l.sinks
        (l.logMessageT time toString reads level v).logger.sinks ∧
      (l.logMessageT time toString reads level v).logger.sinks.length = l.sinks.length) ∧
    (∀ (T : Type) (toString : T → Except Exception String) (v : T),
      List.Forall₂ Sink.evolvesTo l.sinks (l.logDebug time toString reads v).logger.sinks ∧
      List.Forall₂ Sink.evolvesTo l.sinks (l.logInfo time toString reads v).logger.sinks ∧
      List.Forall₂ Sink.evolvesTo l.sinks (l.logWarning time toString reads v).logger.sinks ∧
      List.Forall₂ Sink.evolvesTo l.sinks (l.logError time toString reads v).logger.sinks) ∧
    (∀ (X : Type) (getExceptionSeverity : X → ExceptionSeverity)
      (toString : X → Except Exception String) (x : X),
      List.Forall₂ Sink.evolvesTo l.sinks
        (l.logException time getExceptionSeverity toString reads x).logger.sinks) := by
  refine ⟨fun _ _ => rfl, ?_, ?_, ?_, ?_, ?_⟩
  · intro s
    refine ⟨rfl, ?_, ?_, ?_⟩
    · exact List.prefix_append _ _
    · simp [Logger.addSink]
    · intro i hi
      simp only [Logger.addSink]
      rw [List.getElem?_append_left hi]
  · intro level text
    have h := forEachSinkMessage_evolves time level text l.sinks reads 0
    exact ⟨h, h.length_eq.symm⟩
  · intro T toString level v
    have h := forEachSinkToString_evolves time toString level v l.sinks reads 0
    exact ⟨h, h.length_eq.symm⟩
  · intro T toString v
    exact ⟨forEachSinkToString_evolves time toString _ v l.sinks reads 0,
      forEachSinkToString_evolves time toString _ v l.sinks reads 0,
      forEachSinkToString_evolves time toString _ v l.sinks reads 0,
      forEachSinkToString_evolves time toString _ v l.sinks reads 0⟩
  · intro X getExceptionSeverity toString x
    exact forEachSinkToString_evolves time toString _ x l.sinks reads 0

/-! ## Concurrent producers of a queue sink -/

theorem enqueuedByThread_messages (time : Nat → SystemTime) :
    ∀ (schedule : List (Nat × Action)) (reads : Nat),
      (enqueuedByThread time reads schedule).map Prod.snd =
        enqueuedBy time reads (schedule.map Prod.snd) := by
  intro schedule
  induction schedule with
  | nil => intro reads; rfl
  | cons a rest ih =>
    obtain ⟨thread, act⟩ := a
    intro reads
    cases act <;> simp [enqueuedByThread, enqueuedBy, ih]

/-- C18, as the code has it: for every interleaving of the `sinkMessage` and
`flush` calls of any number of producer threads with the steps of the worker
on a fresh queue sink, the messages passed to `processMessage` are at every
moment an initial segment of the messages in the order they were enqueued (so
none is duplicated or reordered), and those of each single producer are an
initial segment of what that producer submitted, in its submission order.  A
`flush()` adds nothing to this; the processed messages are all the accepted
ones once the worker has caught up, and then they are as many as were
accepted. -/
theorem producers_processed_in_submission_order (time : Nat → SystemTime)
    (raises : TimeLevelString → Option Exception) (app : ApplicationWPtr)
    (reads : Nat) (schedule : List (Nat × Action)) (producer : Nat) :
    ((SinkThread.mk ⟨⟨raises, []⟩, app, ⟨[]⟩, ⟨0⟩⟩ [] reads).run time
        (schedule.map Prod.snd)).sink.received =
      ((enqueuedByThread time reads schedule).take
        ((SinkThread.mk ⟨⟨raises, []⟩, app, ⟨[]⟩, ⟨0⟩⟩ [] reads).run time
          (schedule.map Prod.snd)).sink.received.length).map Prod.snd ∧
    ((enqueuedByThread time reads schedule).take
        ((SinkThread.mk ⟨⟨raises, []⟩, app, ⟨[]⟩, ⟨0⟩⟩ [] reads).run time
          (schedule.map Prod.snd)).sink.received.length).filter
        (fun m => decide (m.1 = producer)) <+:
      (enqueuedByThread time reads schedule).filter (fun m => decide (m.1 = producer)) ∧
    ((SinkThread.mk ⟨⟨raises, []⟩, app, ⟨[]⟩, ⟨0⟩⟩ [] reads).run time
        (schedule.map Prod.snd ++
          ((SinkThread.mk ⟨⟨raises, []⟩, app, ⟨[]⟩, ⟨0⟩⟩ [] reads).run time
            (schedule.map Prod.snd)).catchUp)).sink.received =
      (enqueuedByThread time reads schedule).map Prod.snd ∧
    ((SinkThread.mk ⟨⟨raises, []⟩, app, ⟨[]⟩, ⟨0⟩⟩ [] reads).run time
        (schedule.map Prod.snd ++
          ((SinkThread.mk ⟨⟨raises, []⟩, app, ⟨[]⟩, ⟨0⟩⟩ [] reads).run time
            (schedule.map Prod.snd)).catchUp)).sink.received.length =
      (enqueuedByThread time reads schedule).length := by
  have h := run_conserves_messages time (schedule.map Prod.snd)
    (SinkThread.mk ⟨⟨raises, []⟩, app, ⟨[]⟩, ⟨0⟩⟩ [] reads)
  simp only [List.append_nil, List.nil_append] at h
  have hall : ((SinkThread.mk ⟨⟨raises, []⟩, app, ⟨[]⟩, ⟨0⟩⟩ [] reads).run time
        (schedule.map Prod.snd ++
          ((SinkThread.mk ⟨⟨raises, []⟩, app, ⟨[]⟩, ⟨0⟩⟩ [] reads).run time
            (schedule.map Prod.snd)).catchUp)).sink.received =
      (enqueuedByThread time reads schedule).map Prod.snd := by
    rw [run_append, run_catchUp_received, h, enqueuedByThread_messages]
  refine ⟨?_, ?_, hall, ?_⟩
  · have hp : ((SinkThread.mk ⟨⟨raises, []⟩, app, ⟨[]⟩, ⟨0⟩⟩ [] reads).run time
        (schedule.map Prod.snd)).sink.received <+:
        (enqueuedByThread time reads schedule).map Prod.snd := by
      rw [enqueuedByThread_messages, ← h, List.append_assoc]
      exact List.prefix_append _ _
    rw [List.map_take]
    exact List.prefix_iff_eq_take.mp hp
  · exact (List.take_prefix _ _).filter _
  · rw [hall, List.length_map]

/-- C18 fails as stated: two producers enqueue one message each and one of
them calls `flush()`; when `flush()` has returned the worker has not taken a
step, no message has been processed, and two have been accepted. -/
theorem flush_returns_with_nothing_processed :
    ((SinkThread.mk queueSink [] 0).run tickClock
      ([(1, Action.sinkMessage LogLevel.LOG_INFO "a"),
        (2, Action.sinkMessage LogLevel.LOG_INFO "b"),
        (1, Action.flush)].map Prod.snd)).sink.received = [] ∧
    (enqueuedByThread tickClock 0
      [(1, Action.sinkMessage LogLevel.LOG_INFO "a"),
       (2, Action.sinkMessage LogLevel.LOG_INFO "b"),
       (1, Action.flush)]).map Prod.snd =
      [⟨LogLevel.LOG_INFO, "a", 0⟩, ⟨LogLevel.LOG_INFO, "b", 1⟩] :=
  ⟨rfl, rfl⟩

/-! ## The loops of `loops.hpp` -/

theorem iterate_succ_count : ∀ (n a : Nat), Nat.iterate (fun c => c + 1) n a = a + n := by
  intro n
  induction n with
  | zero => intro a; rfl
  | succ n ih =>
    intro a
    show Nat.iterate (fun c => c + 1) n (a + 1) = a + (n + 1)
    rw [ih]; omega

theorem forRepeatLoop_iterate {σ : Type} (range maxiter : Nat) (body : σ → σ)
    (hmax : maxiter < range) :
    ∀ (d unique : Nat) (s : σ), unique + d = maxiter →
      forRepeatLoop range maxiter body unique s = Nat.iterate body d s := by
  intro d
  induction d with
  | zero =>
    intro unique s h
    rw [forRepeatLoop]
    have : ¬ (unique < range ∧ maxiter < range ∧ unique ≠ maxiter) := by
      intro hc; exact hc.2.2 (by omega)
    rw [dif_neg this]
    rfl
  | succ d ih =>
    intro unique s h
    rw [forRepeatLoop]
    have hg : unique < range ∧ maxiter < range ∧ unique ≠ maxiter :=
      ⟨by omega, hmax, by omega⟩
    rw [dif_pos hg, Nat.mod_eq_of_lt (by omega)]
    exact ih (unique + 1) (body s) (by omega)

/-- C20: for every n that fits in an `unsigned int`, the loop `forRepeat(n)`
terminates and has then run its body exactly n times, zero times for n = 0;
`forRepeatLong(m)` does the same for every m that fits in an
`unsigned long long`.  A body that counts its runs ends at n, respectively
m. -/
theorem forRepeat_runs_body_n_times {σ : Type} (n m : Nat) (body : σ → σ) (s : σ)
    (hn : n < UINT_RANGE) (hm : m < ULLONG_RANGE) :
    forRepeat n body s = Nat.iterate body n s ∧
    forRepeatLong m body s = Nat.iterate body m s ∧
    forRepeat n (fun runs => runs + 1) 0 = n ∧
    forRepeatLong m (fun runs => runs + 1) 0 = m ∧
    forRepeat 0 body s = s ∧
    forRepeatLong 0 body s = s := by
  have hi : ∀ (k : Nat) (body' : σ → σ), k < UINT_RANGE →
      forRepeat k body' s = Nat.iterate body' k s := by
    intro k body' hk
    simp only [forRepeat, Nat.mod_eq_of_lt hk]
    exact forRepeatLoop_iterate UINT_RANGE k body' hk k 0 s (by omega)
  have hl : ∀ (k : Nat) (body' : σ → σ), k < ULLONG_RANGE →
      forRepeatLong k body' s = Nat.iterate body' k s := by
    intro k body' hk
    simp only [forRepeatLong, Nat.mod_eq_of_lt hk]
    exact forRepeatLoop_iterate ULLONG_RANGE k body' hk k 0 s (by omega)
  refine ⟨hi n body hn, hl m body hm, ?_, ?_, ?_, ?_⟩
  · simp only [forRepeat, Nat.mod_eq_of_lt hn]
    rw [forRepeatLoop_iterate UINT_RANGE n _ hn n 0 0 (by omega), iterate_succ_count]
    omega
  · simp only [forRepeatLong, Nat.mod_eq_of_lt hm]
    rw [forRepeatLoop_iterate ULLONG_RANGE m _ hm m 0 0 (by omega), iterate_succ_count]
    omega
  · exact hi 0 body (by decide)
  · exact hl 0 body (by decide)

theorem forRepeat_runs_body_n_times_witness :
    3 < UINT_RANGE ∧ 5 < ULLONG_RANGE ∧
    forRepeat 3 (fun runs => runs + 1) 0 = 3 ∧
    forRepeatLong 5 (fun runs => runs + 1) 0 = 5 :=
  ⟨by decide, by decide,
    (forRepeat_runs_body_n_times 3 5 (fun runs : Nat => runs + 1) 0
      (by decide) (by decide)).2.2.1,
    (forRepeat_runs_body_n_times 3 5 (fun runs : Nat => runs + 1) 0
      (by decide) (by decide)).2.2.2.1⟩

/-! ## `onEach` and `reverseOnEach` -/

theorem onEach_eq_foldl {α σ : Type} (function : α → σ → σ) :
    ∀ (container : List α) (s : σ),
      onEach function container s = container.foldl (fun st item => function item st) s := by
  intro container
  induction container with
  | nil => intro s; rfl
  | cons x rest ih => intro s; simp [onEach, ih]

theorem onEach_append {α σ : Type} (function : α → σ → σ) :
    ∀ (a b : List α) (s : σ),
      onEach function (a ++ b) s = onEach function b (onEach function a s) := by
  intro a
  induction a with
  | nil => intro b s; rfl
  | cons x rest ih => intro b s; simp [onEach, ih]

theorem onEach_record {α : Type} :
    ∀ (container seen : List α),
      onEach (fun item seen => seen ++ [item]) container seen = seen ++ container := by
  intro container
  induction container with
  | nil => intro seen; simp [onEach]
  | cons x rest ih => intro seen; simp [onEach, ih]

theorem onEachRef_record {α : Type} (g : α → α) :
    ∀ (container seen : List α),
      onEachRef (fun item seen => (g item, seen ++ [item])) container seen =
        (container.map g, seen ++ container) := by
  intro container
  induction container with
  | nil => intro seen; simp [onEachRef]
  | cons x rest ih => intro seen; simp [onEachRef, ih]

theorem onEachRef_append {α σ : Type} (function : α → σ → α × σ) :
    ∀ (a b : List α) (s : σ),
      onEachRef function (a ++ b) s =
        ((onEachRef function a s).1 ++ (onEachRef function b (onEachRef function a s).2).1,
          (onEachRef function b (onEachRef function a s).2).2) := by
  intro a
  induction a with
  | nil => intro b s; simp [onEachRef]
  | cons x rest ih => intro b s; simp [onEachRef, ih]

/-- C21: `onEach(f, c)` runs `f` on each item of `c` exactly once, in the
iteration order of the container, and on nothing else: it is the left fold of
`f` over the items, the arguments of its calls are the items of `c` in order
(also when `f` takes the item by reference and changes it), and on an empty
container it makes no call. -/
theorem onEach_runs_on_each_item_in_order {α σ : Type} (function : α → σ → σ)
    (container : List α) (s : σ) :
    onEach function container s =
      container.foldl (fun st item => function item st) s ∧
    onEach (fun item seen => seen ++ [item]) container [] = container ∧
    (∀ g : α → α,
      onEachRef (fun item seen => (g item, seen ++ [item])) container [] =
        (container.map g, container)) ∧
    onEach function [] s = s ∧
    onEach (fun (item : α) (seen : List α) => seen ++ [item]) [] [] = [] := by
  refine ⟨onEach_eq_foldl function container s, ?_, ?_, rfl, rfl⟩
  · simpa using onEach_record container []
  · intro g
    simpa using onEachRef_record g container []

theorem reverseOnEach_eq {α σ : Type} (function : α → σ → σ) :
    ∀ (container : List α) (s : σ),
      reverseOnEach function container s = onEach function container.reverse s := by
  intro container
  induction container with
  | nil => intro s; rfl
  | cons x rest ih =>
    intro s
    rw [List.reverse_cons, onEach_append, ← ih]
    rfl

theorem reverseOnEachRef_eq {α σ : Type} (function : α → σ → α × σ) :
    ∀ (container : List α) (s : σ),
      reverseOnEachRef function container s =
        ((onEachRef function container.reverse s).1.reverse,
          (onEachRef function container.reverse s).2) := by
  intro container
  induction container with
  | nil => intro s; rfl
  | cons x rest ih =>
    intro s
    rw [List.reverse_cons, onEachRef_append]
    simp [reverseOnEachRef, onEachRef, ih]

/-- C22: the calls of `reverseOnEach(f, c)` are those of `onEach(f, c)` in the
reverse order, and `reverseOnEach(f, c)` is `onEach(f, reverse(c))`: the same
final state, and for an `f` that takes the item by reference the same items
changed. -/
theorem reverseOnEach_is_onEach_reversed {α σ : Type} (function : α → σ → σ)
    (functionRef : α → σ → α × σ) (container : List α) (s : σ) :
    reverseOnEach function container s = onEach function container.reverse s ∧
    reverseOnEach (fun item seen => seen ++ [item]) container [] =
      (onEach (fun item seen => seen ++ [item]) container []).reverse ∧
    reverseOnEach (fun item seen => seen ++ [item]) container [] = container.reverse ∧
    reverseOnEachRef functionRef container s =
      ((onEachRef functionRef container.reverse s).1.reverse,
        (onEachRef functionRef container.reverse s).2) := by
  refine ⟨reverseOnEach_eq function container s, ?_, ?_,
    reverseOnEachRef_eq functionRef container s⟩
  · rw [reverseOnEach_eq, onEach_record, onEach_record]; simp
  · rw [reverseOnEach_eq, onEach_record]; simp

/-! ## `assertAsException` -/

theorem assertAsException_of_primary (condition : CExpr) (message : String)
    (primary : (∃ n, condition = CExpr.lit n) ∨ (∃ e, condition = CExpr.not e) ∨
      (∃ e, condition = CExpr.paren e)) :
    assertAsException condition message =
      if condition.eval = 0 then
        some ⟨ExceptionCode.ASSERTION_EXCEPTION, EXCEP_SEVERITY_ERROR, message⟩
      else none := by
  rcases primary with ⟨n, rfl⟩ | ⟨e, rfl⟩ | ⟨e, rfl⟩ <;>
    simp only [assertAsException, CExpr.pasteNot, CExpr.eval, ExceptionBasis] <;>
    split_ifs <;> simp_all

/-- C23 at the failing input: `assertAsException(2 == 1, message)` expands to
`if (!2 == 1) throw ..`, which parses as `(!2) == 1`, that is `0 == 1`: the
condition `2 == 1` is false and yet nothing is thrown.  With the condition in
parentheses the macro does throw, with code `ASSERTION_EXCEPTION` and severity
`EXCEP_SEVERITY_ERROR`.  In the other direction `assertAsException(1 < 5, message)`
becomes `(!1) < 5`, that is `0 < 5`, and throws although `1 < 5` is true. -/
theorem assertAsException_misses_false_comparison :
    (CExpr.eq (CExpr.lit 2) (CExpr.lit 1)).eval = 0 ∧
    (CExpr.eq (CExpr.lit 2) (CExpr.lit 1)).pasteNot =
      CExpr.eq (CExpr.not (CExpr.lit 2)) (CExpr.lit 1) ∧
    assertAsException (CExpr.eq (CExpr.lit 2) (CExpr.lit 1)) "two is not one" = none ∧
    assertAsException (CExpr.paren (CExpr.eq (CExpr.lit 2) (CExpr.lit 1)))
        "two is not one" =
      some ⟨ExceptionCode.ASSERTION_EXCEPTION, EXCEP_SEVERITY_ERROR, "two is not one"⟩ ∧
    (CExpr.lt (CExpr.lit 1) (CExpr.lit 5)).eval = 1 ∧
    assertAsException (CExpr.lt (CExpr.lit 1) (CExpr.lit 5)) "one is below five" =
      some ⟨ExceptionCode.ASSERTION_EXCEPTION, EXCEP_SEVERITY_ERROR, "one is below five"⟩ := by
  refine ⟨by decide, rfl, by decide, by decide, by decide, by decide⟩

/-! ## Rendering of a string -/

/-- C24: when the value is a `std::string`, rendering is the identity: for
every string `s`, `toString(s)` returns `s` without raising and
`toStringNoThrow(s)` returns `s`, a string with the same characters and the
same length. -/
theorem toString_of_string_is_identity (s : String) :
    toStringOfString s = .ok s ∧
    toStringNoThrowOfString s = s ∧
    (toStringNoThrowOfString s).data = s.data ∧
    (toStringNoThrowOfString s).length = s.length ∧
    (∀ e : Exception, toStringOfString s ≠ .error e) := by
  refine ⟨rfl, rfl, rfl, rfl, ?_⟩
  intro e h
  cases h

/-! ## Fan-out is not atomic -/

theorem forEachSinkMessage_raise_at (time : Nat → SystemTime) (level : LogLevel)
    (msg : String) (s : Sink) (after : List Sink) (e : Exception) :
    ∀ (before : List Sink) (reads i : Nat),
      (forEachSinkMessage time level msg before reads i).raised = none →
      (s.sinkMessage (time (reads + before.length)) level msg).raised = some e →
      (forEachSinkMessage time level msg (before ++ s :: after) reads i).raised = some e ∧
      (forEachSinkMessage time level msg (before ++ s :: after) reads i).sinks =
        (forEachSinkMessage time level msg before reads i).sinks ++
          (s.sinkMessage (time (reads + before.length)) level msg).state :: after ∧
      (forEachSinkMessage time level msg (before ++ s :: after) reads i).trace =
        (List.range' i (before.length + 1)).map (fun j => Event.sinkMessage j level msg) := by
  intro before
  induction before with
  | nil =>
    intro reads i _ hs
    simp only [List.nil_append, List.length_nil, Nat.add_zero] at hs ⊢
    unfold forEachSinkMessage
    simp [hs, forEachSinkMessage]
  | cons b rest ih =>
    intro reads i hb hs
    unfold forEachSinkMessage at hb
    cases hr : (b.sinkMessage (time reads) level msg).raised with
    | some e' => simp [hr] at hb
    | none =>
      simp only [hr] at hb
      have e1 : reads + (b :: rest).length = reads + 1 + rest.length := by
        simp only [List.length_cons]; omega
      rw [e1] at hs
      obtain ⟨h1, h2, h3⟩ := ih (reads + 1) (i + 1) hb hs
      rw [e1]
      simp only [List.cons_append]
      rw [forEachSinkMessage.eq_def time level msg (b :: (rest ++ s :: after)),
        forEachSinkMessage.eq_def time level msg (b :: rest)]
      simp only [hr, h1, h2, h3]
      simp [List.range'_succ]

/-- C25: fan-out is not atomic across sinks.  When, during
`Logger::logMessage(level, text)`, the `sinkMessage` of the sink at position i
raises (the sinks before it having returned), the exception leaves
`logMessage`; the sinks before position i have received the message, each
being in the state its `sinkMessage(level, text)` gives; the sinks after
position i are untouched; and `sinkMessage` was called on positions 0 .. i
only. -/
theorem fanout_stops_at_raising_sink (time : Nat → SystemTime) (logname : String)
    (app : ApplicationWPtr) (before after : List Sink) (s : Sink) (e : Exception)
    (reads : Nat) (level : LogLevel) (text : String)
    (earlier : ∀ (j : Nat) (b : Sink), before[j]? = some b →
      b.raisesOn (time (reads + j)) level text = none)
    (raises : (s.sinkMessage (time (reads + before.length)) level text).raised = some e) :
    ((Logger.mk (before ++ s :: after) logname app).logMessage time reads level text).raised = some e ∧
    (∀ j : Nat, j < before.length →
      ((Logger.mk (before ++ s :: after) logname app).logMessage time reads level text).logger.sinks[j]? =
        (before[j]?).map (fun b => (b.sinkMessage (time (reads + j)) level text).state)) ∧
    ((Logger.mk (before ++ s :: after) logname app).logMessage time reads level text).logger.sinks[before.length]? =
      some (s.sinkMessage (time (reads + before.length)) level text).state ∧
    ((Logger.mk (before ++ s :: after) logname app).logMessage time reads level text).logger.sinks.drop (before.length + 1) = after ∧
    ((Logger.mk (before ++ s :: after) logname app).logMessage time reads level text).trace =
      (List.range (before.length + 1)).map (fun j => Event.sinkMessage j level text) := by
  have hb : (forEachSinkMessage time level text before reads 0).raised = none :=
    (forEachSinkMessage_raised_iff time level text before reads 0).mpr earlier
  obtain ⟨h1, h2, h3⟩ :=
    forEachSinkMessage_raise_at time level text s after e before reads 0 hb raises
  have hlen : (forEachSinkMessage time level text before reads 0).sinks.length =
      before.length :=
    (forEachSinkMessage_evolves time level text before reads 0).length_eq.symm
  simp only [Logger.logMessage]
  refine ⟨h1, ?_, ?_, ?_, ?_⟩
  · intro j hj
    rw [h2, List.getElem?_append_left (by rw [hlen]; exact hj)]
    exact forEachSinkMessage_sinks time level text before reads 0 hb j
  · rw [h2, List.getElem?_append_right (by rw [hlen]), hlen]
    simp
  · rw [h2, List.drop_append_eq_append_drop, hlen]
    simp [List.drop_eq_nil_of_le, hlen]
  · rw [h3, List.range_eq_range']

theorem fanout_stops_at_raising_sink_witness :
    (∀ (j : Nat) (b : Sink), [recordingSink][j]? = some b →
      b.raisesOn (tickClock (0 + j)) LogLevel.LOG_INFO "a" = none) ∧
    (failingSink.sinkMessage (tickClock (0 + [recordingSink].length))
      LogLevel.LOG_INFO "a").raised = some backendFailure ∧
    ((Logger.mk ([recordingSink] ++ failingSink :: [Sink.queued queueSink]) "main"
      liveApp).logMessage tickClock 0 LogLevel.LOG_INFO "a").raised = some backendFailure ∧
    ((Logger.mk ([recordingSink] ++ failingSink :: [Sink.queued queueSink]) "main"
      liveApp).logMessage tickClock 0 LogLevel.LOG_INFO "a").trace =
      [Event.sinkMessage 0 LogLevel.LOG_INFO "a", Event.sinkMessage 1 LogLevel.LOG_INFO "a"] :=
  have earlier : ∀ (j : Nat) (b : Sink), [recordingSink][j]? = some b →
      b.raisesOn (tickClock (0 + j)) LogLevel.LOG_INFO "a" = none := by
    intro j b h
    cases j with
    | zero =>
      simp at h
      subst h
      rfl
    | succ j => simp at h
  ⟨earlier, rfl,
    (fanout_stops_at_raising_sink tickClock "main" liveApp [recordingSink]
      [Sink.queued queueSink] failingSink backendFailure 0 LogLevel.LOG_INFO "a"
      earlier rfl).1,
    (fanout_stops_at_raising_sink tickClock "main" liveApp [recordingSink]
      [Sink.queued queueSink] failingSink backendFailure 0 LogLevel.LOG_INFO "a"
      earlier rfl).2.2.2.2⟩

/-! ## Enumerations and their names -/

theorem EXCEP_SEVERITY_STRING_BIMAP_pairs :
    EXCEP_SEVERITY_STRING_BIMAP.pairs =
      [(EXCEP_SEVERITY_NOTICE, "Notice"), (EXCEP_SEVERITY_WARNING, "Warning"),
       (EXCEP_SEVERITY_ERROR, "Error")] := by
  decide

theorem EXCEP_CODE_STRING_BIMAP_pairs :
    EXCEP_CODE_STRING_BIMAP.pairs = exceptionCodeStrings := by
  decide

theorem exceptionCodeStrings_names_nodup :
    (exceptionCodeStrings.map Prod.snd).Nodup := by
  decide

theorem find?_snd_eq_none {L R : Type} [DecidableEq R] (v : R) :
    ∀ pairs : List (L × R),
      pairs.find? (fun q => decide (q.2 = v)) = none ↔ ∀ l : L, (l, v) ∉ pairs := by
  intro pairs
  induction pairs with
  | nil => simp
  | cons p rest ih =>
    obtain ⟨a, b⟩ := p
    by_cases hb : b = v
    · subst hb
      simp only [List.find?_cons, decide_True]
      constructor
      · intro h; cases h
      · intro h; exact absurd (List.mem_cons_self _ _) (h a)
    · simp only [List.find?_cons, hb, decide_False, ih]
      constructor
      · intro h l hm
        rcases List.mem_cons.mp hm with heq | hm
        · exact hb (Prod.mk.inj heq).2.symm
        · exact h l hm
      · intro h l hm
        exact h l (List.mem_cons_of_mem _ hm)

theorem find?_snd_eq_some {L R : Type} [DecidableEq R] (v : R) (l : L) :
    ∀ pairs : List (L × R), (pairs.map Prod.snd).Nodup → (l, v) ∈ pairs →
      pairs.find? (fun q => decide (q.2 = v)) = some (l, v) := by
  intro pairs
  induction pairs with
  | nil => intro _ h; cases h
  | cons p rest ih =>
    obtain ⟨a, b⟩ := p
    intro hn hm
    simp only [List.map_cons, List.nodup_cons] at hn
    by_cases hb : b = v
    · subst hb
      simp only [List.find?_cons, decide_True]
      rcases List.mem_cons.mp hm with heq | hm'
      · rw [(Prod.mk.inj heq).1]
      · exact absurd (List.mem_map_of_mem Prod.snd hm') hn.1
    · simp only [List.find?_cons, hb, decide_False]
      rcases List.mem_cons.mp hm with heq | hm'
      · exact absurd (Prod.mk.inj heq).2.symm hb
      · exact ih hn.2 hm'

/-- C26: the enumeration names round-trip.  For each of the three severities
and each of the seventeen codes, `toString` gives a name and `stringToType` of
that name gives the value back.  The names of each bimap are pairwise
distinct, so building the bimap drops no pair: it holds three and seventeen
pairs. -/
theorem enum_names_round_trip :
    (toStringOfSeverity EXCEP_SEVERITY_NOTICE = some "Notice" ∧
      stringToTypeSeverity "Notice" = .ok EXCEP_SEVERITY_NOTICE) ∧
    (toStringOfSeverity EXCEP_SEVERITY_WARNING = some "Warning" ∧
      stringToTypeSeverity "Warning" = .ok EXCEP_SEVERITY_WARNING) ∧
    (toStringOfSeverity EXCEP_SEVERITY_ERROR = some "Error" ∧
      stringToTypeSeverity "Error" = .ok EXCEP_SEVERITY_ERROR) ∧
    (∀ c : ExceptionCode, ∃ name : String,
      toStringOfCode c = some name ∧ stringToTypeCode name = .ok c) ∧
    (EXCEP_SEVERITY_STRING_BIMAP.pairs.map Prod.snd).Nodup ∧
    EXCEP_SEVERITY_STRING_BIMAP.pairs.length = 3 ∧
    (EXCEP_CODE_STRING_BIMAP.pairs.map Prod.snd).Nodup ∧
    EXCEP_CODE_STRING_BIMAP.pairs = exceptionCodeStrings ∧
    EXCEP_CODE_STRING_BIMAP.pairs.length = 17 := by
  refine ⟨⟨by decide, rfl⟩, ⟨by decide, rfl⟩, ⟨by decide, rfl⟩, ?_, ?_, ?_, ?_, ?_, ?_⟩
  · intro c
    cases c <;> exact ⟨_, rfl, rfl⟩
  · decide
  · decide
  · rw [EXCEP_CODE_STRING_BIMAP_pairs]; exact exceptionCodeStrings_names_nodup
  · exact EXCEP_CODE_STRING_BIMAP_pairs
  · decide

theorem valueToEnum_severity (str : String) :
    valueToEnum EXCEP_SEVERITY_STRING_BIMAP str =
      if str = "Notice" then some EXCEP_SEVERITY_NOTICE
      else if str = "Warning" then some EXCEP_SEVERITY_WARNING
      else if str = "Error" then some EXCEP_SEVERITY_ERROR
      else none := by
  simp only [valueToEnum, EXCEP_SEVERITY_STRING_BIMAP_pairs, List.find?_cons, List.find?_nil]
  by_cases h1 : str = "Notice"
  · subst h1; rfl
  · by_cases h2 : str = "Warning"
    · subst h2; rfl
    · by_cases h3 : str = "Error"
      · subst h3; rfl
      · have e1 : decide ("Notice" = str) = false := by simpa using fun h => h1 h.symm
        have e2 : decide ("Warning" = str) = false := by simpa using fun h => h2 h.symm
        have e3 : decide ("Error" = str) = false := by simpa using fun h => h3 h.symm
        simp [h1, h2, h3, e1, e2, e3]

/-- C27: the no-throw parsers are total with a fixed fallback.  For every
string `str`, `stringToTypeNoThrow<ExceptionSeverity>(str)` is the severity
named by `str` when `str` is "Notice", "Warning" or "Error" and
`EXCEP_SEVERITY_ERROR` otherwise; `stringToTypeNoThrow<ExceptionCode>(str)` is
the code named by `str` when `str` is the name of a code and
`UNKNOWN_EXCEPTION` otherwise; and `stringToType` raises a cast exception
exactly on the strings on which the fallback is taken, returning the named
value on the others. -/
theorem enum_parsers_fall_back (str : String) :
    stringToTypeNoThrowSeverity str =
      (if str = "Notice" then EXCEP_SEVERITY_NOTICE
       else if str = "Warning" then EXCEP_SEVERITY_WARNING
       else EXCEP_SEVERITY_ERROR) ∧
    stringToTypeSeverity str =
      (if str = "Notice" ∨ str = "Warning" ∨ str = "Error" then
        .ok (stringToTypeNoThrowSeverity str)
       else .error (throwCastException "Invalid/Unknown enumeration string name")) ∧
    (∀ c : ExceptionCode, (c, str) ∈ exceptionCodeStrings →
      stringToTypeNoThrowCode str = c ∧ stringToTypeCode str = .ok c) ∧
    ((∀ c : ExceptionCode, (c, str) ∉ exceptionCodeStrings) →
      stringToTypeNoThrowCode str = ExceptionCode.UNKNOWN_EXCEPTION ∧
      stringToTypeCode str =
        .error (throwCastException "Invalid/Unknown enumeration string name")) ∧
    ((∃ e : Exception, stringToTypeCode str = .error e) ↔
      ∀ c : ExceptionCode, (c, str) ∉ exceptionCodeStrings) ∧
    (throwCastException "Invalid/Unknown enumeration string name").code =
      ExceptionCode.CAST_EXCEPTION := by
  have hsome : ∀ c : ExceptionCode, (c, str) ∈ exceptionCodeStrings →
      valueToEnum EXCEP_CODE_STRING_BIMAP str = some c := by
    intro c hc
    simp only [valueToEnum, EXCEP_CODE_STRING_BIMAP_pairs]
    rw [find?_snd_eq_some str c exceptionCodeStrings exceptionCodeStrings_names_nodup hc]
    rfl
  have hnone : (∀ c : ExceptionCode, (c, str) ∉ exceptionCodeStrings) →
      valueToEnum EXCEP_CODE_STRING_BIMAP str = none := by
    intro h
    simp only [valueToEnum, EXCEP_CODE_STRING_BIMAP_pairs]
    rw [(find?_snd_eq_none str exceptionCodeStrings).mpr h]
    rfl
  refine ⟨?_, ?_, ?_, ?_, ?_, rfl⟩
  · simp only [stringToTypeNoThrowSeverity, valueToEnum_severity]
    split_ifs <;> rfl
  · simp only [stringToTypeSeverity, stringToTypeNoThrowSeverity, valueToEnum_severity]
    split_ifs <;> simp_all
  · intro c hc
    simp [stringToTypeNoThrowCode, stringToTypeCode, hsome c hc]
  · intro h
    simp [stringToTypeNoThrowCode, stringToTypeCode, hnone h]
  · constructor
    · intro ⟨e, he⟩ c hc
      simp [stringToTypeCode, hsome c hc] at he
    · intro h
      refine ⟨throwCastException "Invalid/Unknown enumeration string name", ?_⟩
      simp [stringToTypeCode, hnone h]

/-! ## The generic overload when `toString` runs user code -/

theorem forEachSinkToString_eq_at {T : Type} (time : Nat → SystemTime)
    (toString : T → Except Exception String) (level : LogLevel) (msg : T) :
    ∀ (ss : List Sink) (reads i : Nat),
      forEachSinkToString time toString level msg ss reads i =
        forEachSinkToStringAt time (fun _ => toString) level msg ss reads i := by
  intro ss
  induction ss with
  | nil => intro reads i; rfl
  | cons s rest ih =>
    intro reads i
    unfold forEachSinkToString forEachSinkToStringAt
    cases ht : toString msg with
    | error e => rfl
    | ok text =>
      simp only []
      cases hr : (s.sinkMessage (time reads) level text).raised with
      | some e => rfl
      | none => simp only [ih (reads + 1) (i + 1)]

theorem logMessageT_eq_logMessageTAt {T : Type} (time : Nat → SystemTime)
    (toString : T → Except Exception String) (l : Logger) (reads : Nat)
    (level : LogLevel) (v : T) :
    l.logMessageT time toString reads level v =
      l.logMessageTAt time (fun _ => toString) reads level v := by
  simp only [Logger.logMessageT, Logger.logMessageTAt, forEachSinkToString_eq_at]

theorem forEachSinkToStringAt_trace {T : Type} (time : Nat → SystemTime)
    (toStringAt : Nat → T → Except Exception String) (level : LogLevel) (msg : T) :
    ∀ (ss : List Sink) (reads i : Nat),
      (forEachSinkToStringAt time toStringAt level msg ss reads i).raised = none →
      (∀ j : Nat, j < ss.length → ∃ text : String, toStringAt (i + j) msg = .ok text) ∧
      (forEachSinkToStringAt time toStringAt level msg ss reads i).trace =
        (List.range' i ss.length).flatMap (fun k =>
          [Event.toString,
           Event.sinkMessage k level ((toStringAt k msg).toOption.getD "")]) ∧
      (forEachSinkToStringAt time toStringAt level msg ss reads i).trace.count
          Event.toString = ss.length := by
  intro ss
  induction ss with
  | nil => intro reads i _; simp [forEachSinkToStringAt]
  | cons s rest ih =>
    intro reads i h
    unfold forEachSinkToStringAt at h ⊢
    cases ht : toStringAt i msg with
    | error e => simp [ht] at h
    | ok text =>
      simp only [ht] at h ⊢
      cases hr : (s.sinkMessage (time reads) level text).raised with
      | some e => simp [hr] at h
      | none =>
        simp only [hr] at h ⊢
        obtain ⟨h1, h2, h3⟩ := ih (reads + 1) (i + 1) h
        refine ⟨?_, ?_, ?_⟩
        · intro j hj
          cases j with
          | zero => exact ⟨text, by simpa using ht⟩
          | succ j =>
            obtain ⟨t, ht'⟩ := h1 j (by simpa using hj)
            exact ⟨t, by rw [← ht']; congr 1; omega⟩
        · rw [h2]
          simp [List.range'_succ, List.flatMap_cons, ht, Except.toOption]
        · simp [List.count_cons, h3]

/-- C2, as the code has it: a call of the generic `logMessage(level, v)` that
returns has evaluated `toString(v)` once for every owned sink, each evaluation
immediately before the `sinkMessage` call on that sink, which gets the text of
that evaluation: the calls are `toString`, `sinkMessage` on sink 0, `toString`,
`sinkMessage` on sink 1, and so on.  So `toString(v)` is evaluated as many
times as the Logger has sinks, and never for a Logger without sinks. -/
theorem logMessageT_renders_before_each_sinkMessage {T : Type} (time : Nat → SystemTime)
    (toStringAt : Nat → T → Except Exception String) (l : Logger) (reads : Nat)
    (level : LogLevel) (v : T)
    (returns : (l.logMessageTAt time toStringAt reads level v).raised = none) :
    (∀ i : Nat, i < l.sinks.length → ∃ text : String, toStringAt i v = .ok text) ∧
    (l.logMessageTAt time toStringAt reads level v).trace =
      (List.range l.sinks.length).flatMap (fun i =>
        [Event.toString,
         Event.sinkMessage i level ((toStringAt i v).toOption.getD "")]) ∧
    (l.logMessageTAt time toStringAt reads level v).trace.count Event.toString =
      l.sinks.length := by
  simp only [Logger.logMessageTAt] at returns ⊢
  obtain ⟨h1, h2, h3⟩ :=
    forEachSinkToStringAt_trace time toStringAt level v l.sinks reads 0 returns
  refine ⟨?_, ?_, h3⟩
  · intro i hi
    simpa using h1 i hi
  · rw [h2, List.range_eq_range']

theorem logMessageT_renders_before_each_sinkMessage_witness :
    ((Logger.mk [Sink.queued queueSink, recordingSink] "main" liveApp).logMessageTAt
        tickClock (fun _ => renderBool) 0 LogLevel.LOG_INFO true).raised = none ∧
    ((Logger.mk [Sink.queued queueSink, recordingSink] "main" liveApp).logMessageTAt
        tickClock (fun _ => renderBool) 0 LogLevel.LOG_INFO true).trace =
      [Event.toString, Event.sinkMessage 0 LogLevel.LOG_INFO "true",
       Event.toString, Event.sinkMessage 1 LogLevel.LOG_INFO "true"] :=
  ⟨rfl, (logMessageT_renders_before_each_sinkMessage tickClock (fun _ => renderBool)
    (Logger.mk [Sink.queued queueSink, recordingSink] "main" liveApp)
    0 LogLevel.LOG_INFO true rfl).2.1⟩

theorem forEachSinkToStringAt_stable {T : Type} (time : Nat → SystemTime)
    (toStringAt : Nat → T → Except Exception String) (level : LogLevel) (msg : T)
    (text : String) :
    ∀ (ss : List Sink) (reads i : Nat),
      (∀ j : Nat, j < ss.length → toStringAt (i + j) msg = .ok text) →
      (forEachSinkToStringAt time toStringAt level msg ss reads i).raised =
        (forEachSinkMessage time level text ss reads i).raised ∧
      (forEachSinkToStringAt time toStringAt level msg ss reads i).sinks =
        (forEachSinkMessage time level text ss reads i).sinks ∧
      (forEachSinkToStringAt time toStringAt level msg ss reads i).reads =
        (forEachSinkMessage time level text ss reads i).reads ∧
      (forEachSinkToStringAt time toStringAt level msg ss reads i).trace.filter
          (fun e => decide (e ≠ Event.toString)) =
        (forEachSinkMessage time level text ss reads i).trace := by
  intro ss
  induction ss with
  | nil => intro reads i _; simp [forEachSinkToStringAt, forEachSinkMessage]
  | cons s rest ih =>
    intro reads i hst
    have ht : toStringAt i msg = .ok text := by simpa using hst 0 (by simp)
    have hrest : ∀ j : Nat, j < rest.length → toStringAt (i + 1 + j) msg = .ok text := by
      intro j hj
      have := hst (j + 1) (by simpa using hj)
      rw [← this]; congr 1; omega
    obtain ⟨h1, h2, h3, h4⟩ := ih (reads + 1) (i + 1) hrest
    unfold forEachSinkToStringAt forEachSinkMessage
    simp only [ht]
    cases hr : (s.sinkMessage (time reads) level text).raised with
    | some e => simp [List.filter]
    | none =>
      simp only [List.filter, decide_not] at h4 ⊢
      simp [h1, h2, h3, h4]

/-- C14, as the code has it: when every evaluation of `toString(v)` in the
call (there is one per sink) succeeds with one and the same text, the generic
`logMessage(level, v)` and `logMessage(level, text)` leave the Logger and
every one of its sinks in the same state, leave in the same way (normally or
with the same exception), read the clock as often, and make the same
`sinkMessage` calls: the same sinks in the same order, each with the same
level and that one text. -/
theorem logMessageT_same_as_logMessage_when_rendering_agrees {T : Type}
    (time : Nat → SystemTime) (toStringAt : Nat → T → Except Exception String)
    (l : Logger) (reads : Nat) (level : LogLevel) (v : T) (text : String)
    (agrees : ∀ i : Nat, i < l.sinks.length → toStringAt i v = .ok text) :
    (l.logMessageTAt time toStringAt reads level v).logger.sinks =
      (l.logMessage time reads level text).logger.sinks ∧
    (l.logMessageTAt time toStringAt reads level v).logger.name =
      (l.logMessage time reads level text).logger.name ∧
    (l.logMessageTAt time toStringAt reads level v).logger.application =
      (l.logMessage time reads level text).logger.application ∧
    (l.logMessageTAt time toStringAt reads level v).raised =
      (l.logMessage time reads level text).raised ∧
    (l.logMessageTAt time toStringAt reads level v).reads =
      (l.logMessage time reads level text).reads ∧
    (l.logMessageTAt time toStringAt reads level v).trace.filter
        (fun e => decide (e ≠ Event.toString)) =
      (l.logMessage time reads level text).trace := by
  obtain ⟨h1, h2, h3, h4⟩ :=
    forEachSinkToStringAt_stable time toStringAt level v text l.sinks reads 0
      (by intro j hj; simpa using agrees j hj)
  exact ⟨h2, rfl, rfl, h1, h3, h4⟩

theorem logMessageT_same_as_logMessage_when_rendering_agrees_witness :
    (∀ i : Nat, i < [recordingSink, Sink.queued queueSink].length →
      (fun (_ : Nat) => renderBool) i true = .ok "true") ∧
    ((Logger.mk [recordingSink, Sink.queued queueSink] "main" liveApp).logMessageTAt
        tickClock (fun _ => renderBool) 0 LogLevel.LOG_INFO true).trace.filter
        (fun e => decide (e ≠ Event.toString)) =
      ((Logger.mk [recordingSink, Sink.queued queueSink] "main" liveApp).logMessage
        tickClock 0 LogLevel.LOG_INFO "true").trace :=
  ⟨fun _ _ => rfl,
    (logMessageT_same_as_logMessage_when_rendering_agrees tickClock (fun _ => renderBool)
      (Logger.mk [recordingSink, Sink.queued queueSink] "main" liveApp) 0
      LogLevel.LOG_INFO true "true" (fun _ _ => rfl)).2.2.2.2.2⟩

/-- C14 fails as stated: the rendering of a value whose `toString()` counts
its calls succeeds at every evaluation, with "1" the first time and "2" the
second.  On a Logger with two recording sinks the generic `logMessage` hands
"1" to the first sink and "2" to the second, so the sinks do not receive one
and the same text, and no `logMessage(level, text)` makes the same calls. -/
theorem logMessageT_sinks_get_different_texts :
    countingRender 0 () = .ok "1" ∧
    countingRender 1 () = .ok "2" ∧
    (((Logger.mk [recordingSink, recordingSink] "main" liveApp).logMessageTAt
        tickClock countingRender 0 LogLevel.LOG_INFO ()).logger.sinks.map Sink.record) =
      [[(LogLevel.LOG_INFO, "1")], [(LogLevel.LOG_INFO, "2")]] ∧
    ((Logger.mk [recordingSink, recordingSink] "main" liveApp).logMessageTAt
        tickClock countingRender 0 LogLevel.LOG_INFO ()).raised = none ∧
    ¬ ∃ text : String,
      ((Logger.mk [recordingSink, recordingSink] "main" liveApp).logMessageTAt
          tickClock countingRender 0 LogLevel.LOG_INFO ()).trace.filter
          (fun e => decide (e ≠ Event.toString)) =
        ((Logger.mk [recordingSink, recordingSink] "main" liveApp).logMessage
          tickClock 0 LogLevel.LOG_INFO text).trace := by
  refine ⟨rfl, rfl, rfl, rfl, ?_⟩
  rintro ⟨text, h⟩
  have hl : ((Logger.mk [recordingSink, recordingSink] "main" liveApp).logMessageTAt
      tickClock countingRender 0 LogLevel.LOG_INFO ()).trace.filter
      (fun e => decide (e ≠ Event.toString)) =
      [Event.sinkMessage 0 LogLevel.LOG_INFO "1",
       Event.sinkMessage 1 LogLevel.LOG_INFO "2"] := by
    decide
  have hr : ((Logger.mk [recordingSink, recordingSink] "main" liveApp).logMessage
      tickClock 0 LogLevel.LOG_INFO text).trace =
      [Event.sinkMessage 0 LogLevel.LOG_INFO text,
       Event.sinkMessage 1 LogLevel.LOG_INFO text] := rfl
  rw [hl, hr] at h
  simp only [List.cons.injEq, Event.sinkMessage.injEq, true_and, and_true] at h
  obtain ⟨h1, h2⟩ := h
  rw [← h1] at h2
  exact absurd h2 (by decide)

end core
